import Mathlib

/-!
# xc: the editing core of a modal terminal editor

A shallow embedding of `src/xc.c` and the properties of its buffer, cursor and
viewport code.

Conventions of the embedding.

* A C `int` and a C `char` are modelled by `Int`; arithmetic is the mathematical
  one (the C code has undefined behaviour on signed overflow, so nothing is
  promised outside the representable range).
* A heap block is the list of its cells: `xc_line_t.text` is the allocated block
  of a line (its first `cap` cells are the content, cell `cap` is the NUL), and
  `xc_buffer_t.lines` is the allocated array of line records (its first `count`
  cells are the lines of the buffer).  `malloc`, `calloc`, `realloc`, `memcpy`
  and `memmove` are list functions; cells whose C value is indeterminate are
  modelled as zero.
* An access outside a block is undefined in C; the list functions are total and
  return a default there.  Theorems speak about states whose accesses are in
  range.
* Terminal output is not part of the state: `state_step` omits the final
  `state_draw` call, which only prints and fills `status_line`.  `draw_line` is a
  function from the line to the bytes it prints; terminal input is the list of bytes
  that arrive.
* File-system calls are answered by an oracle `xc_io`.
-/

namespace Xc

/-! ## Program structures -/

/-- The editor mode, `xc_mode` in the source. -/
inductive xc_mode where
  | COMMAND
  | INSERT
deriving DecidableEq, Repr

/-- One line record: `cap` is the content length, `size` the recorded allocation,
`text` the allocated block. -/
structure xc_line_t where
  cap : Int
  size : Int
  text : List Int
deriving DecidableEq, Repr

/-- A zero-filled line record, as `calloc` produces it (`text` is the null pointer). -/
instance : Inhabited xc_line_t := ⟨{ cap := 0, size := 0, text := [] }⟩

/-- The buffer: line count, scroll offset and the array of line records. -/
structure xc_buffer_t where
  count : Int
  scroll : Int
  lines : List xc_line_t
deriving DecidableEq, Repr

/-- The editor state, `xc_state_t` in the source (without `status_line`). -/
structure xc_state_t where
  dirty : Bool
  running : Bool
  syntax_highlight : Bool
  scr_w : Int
  scr_h : Int
  buf_x : Int
  buf_y : Int
  cur_x : Int
  cur_y : Int
  filename : List Int
  mode : xc_mode
  buffer : xc_buffer_t
deriving DecidableEq, Repr

/-- Answers of the file system to the calls made by `state_write`. -/
structure xc_io where
  /-- Result of `open(filename, O_WRONLY | O_CREAT | O_TRUNC, 0644)`. -/
  open_fd : List Int → Int
  /-- Result of `write(fd, line->text, line->cap)` for line `i` with `n` bytes requested. -/
  write_res : Int → Int → Int
  /-- Result of the one-byte `write` of the line feed after line `i`. -/
  nl_res : Int → Int

/-! ## Constants -/

def UP : Int := 0
def DOWN : Int := 1
def RIGHT : Int := 2
def LEFT : Int := 3
def PGUP : Int := 4
def PGDN : Int := 5

def TAB_WIDTH : Int := 4

def INT_MAX : Int := 2147483647

/-- The string `"~/.xcbackup"`. -/
def BACKUP_FILE : List Int := [126, 47, 46, 120, 99, 98, 97, 99, 107, 117, 112]

/-! ## Memory primitives -/

/-- A fresh block of `n` cells. -/
def malloc (n : Int) : List Int := List.replicate n.toNat 0

/-- A fresh zeroed block of `n` cells. -/
def calloc (n : Int) : List Int := List.replicate n.toNat 0

/-- Resize block `p` to `n` cells, keeping the common initial part. -/
def realloc {α : Type} [Inhabited α] (p : List α) (n : Int) : List α :=
  (p ++ List.replicate n.toNat default).take n.toNat

/-- Copy `n` cells of `src` into `dst` at offset `off`. -/
def memcpy (dst : List Int) (off : Int) (src : List Int) (n : Int) : List Int :=
  dst.take off.toNat ++ src.take n.toNat ++ dst.drop (off.toNat + n.toNat)

/-- Move `n` cells inside block `a` from offset `src` to offset `dst`. -/
def memmove {α : Type} (a : List α) (dst src n : Int) : List α :=
  a.take dst.toNat ++ (a.drop src.toNat).take n.toNat ++ a.drop (dst.toNat + n.toNat)

/-- The C library `isprint` in the C locale. -/
def isprint (c : Int) : Bool := decide (32 ≤ c ∧ c ≤ 126)

/-- The suffix of `s` starting at the last occurrence of `c`, as `strrchr` finds it. -/
def strrchr : List Int → Int → Option (List Int)
  | [], _ => none
  | x :: xs, c =>
    match strrchr xs c with
    | some r => some r
    | none => if x = c then some (x :: xs) else none

/-! ## Cursor -/

/-- The loop of `set_cur_x`: `k` bounds the remaining iterations. -/
def set_cur_x_loop (line : List Int) (buf_x len : Int) : Nat → Int → Int → Int
  | 0, _, cur_x => cur_x
  | k + 1, i, cur_x =>
    if i < buf_x ∧ i < len then
      set_cur_x_loop line buf_x len k (i + 1)
        (if line.getD i.toNat 0 = 9 then cur_x + TAB_WIDTH else cur_x + 1)
    else cur_x

/-- Recompute the visual column from the byte offset (`set_cur_x`). -/
def set_cur_x (state : xc_state_t) : xc_state_t :=
  let len := (state.buffer.lines.getD state.buf_y.toNat default).cap
  let line := (state.buffer.lines.getD state.buf_y.toNat default).text
  { state with cur_x := set_cur_x_loop line state.buf_x len len.toNat 0 0 }

/-! ## State handlers -/

/-- First loop of `state_init`: count the line feeds. -/
def state_init_count : List Int → Int → Int
  | [], count => count
  | c :: rest, count => state_init_count rest (if c = 10 then count + 1 else count)

/-- Second loop of `state_init`: `rest` is `raw` from index `i` on. -/
def state_init_fill (raw : List Int) :
    List Int → Int → Int → Int → List xc_line_t → List xc_line_t
  | [], _, _, _, lines => lines
  | c :: rest, i, last, cur_line, lines =>
    if c = 10 then
      let len := i - last
      let cur : xc_line_t :=
        { cap := len
          size := len + 32
          text := memcpy (calloc (len + 32)) 0 (raw.drop last.toNat) len }
      state_init_fill raw rest (i + 1) (i + 1) (cur_line + 1) (lines.set cur_line.toNat cur)
    else state_init_fill raw rest (i + 1) last cur_line lines

/-- The part of `state_init` after the file was read into `raw`; `ws_col` and
`ws_row` are the terminal size. -/
def state_init (state : xc_state_t) (path raw : List Int) (ws_col ws_row : Int) :
    xc_state_t :=
  let count := state_init_count raw 0
  let lines := state_init_fill raw raw 0 0 0 (List.replicate count.toNat default)
  let buffer : xc_buffer_t :=
    if count = 0 then
      { count := 1, scroll := 0, lines := [{ cap := 0, size := 32, text := calloc 32 }] }
    else { count := count, scroll := 0, lines := lines }
  let syntax_highlight :=
    match strrchr path 46 with
    | some extension => if extension.drop 1 = [99] then true else state.syntax_highlight
    | none => state.syntax_highlight
  { state with
    buffer := buffer
    mode := xc_mode.COMMAND
    dirty := false
    running := true
    syntax_highlight := syntax_highlight
    scr_w := ws_col
    scr_h := ws_row
    buf_x := 0
    buf_y := 0
    cur_x := 0
    cur_y := 0
    filename := path }

/-- The loop of `state_write`: `k` is the number of lines still to write, `out`
the bytes written so far.  Returns whether every line was written in full. -/
def state_write_loop (io : xc_io) (lines : List xc_line_t) :
    Nat → Int → List Int → Bool × List Int
  | 0, _, out => (true, out)
  | k + 1, i, out =>
    let line := lines.getD i.toNat default
    let res := io.write_res i line.cap
    let out1 := out ++ line.text.take res.toNat
    if res ≠ line.cap then (false, out1)
    else state_write_loop io lines k (i + 1) (out1 ++ [(10 : Int)].take (io.nl_res i).toNat)

/-- Save the buffer (`state_write`): the result, the new state and the bytes
that reached the file (`none` when the file could not be opened). -/
def state_write (io : xc_io) (state : xc_state_t) (filename : List Int) :
    Bool × xc_state_t × Option (List Int) :=
  let fd := io.open_fd filename
  if fd < 0 then (false, state, none)
  else
    let r := state_write_loop io state.buffer.lines state.buffer.count.toNat 0 []
    if r.1 then (true, { state with dirty := false }, some r.2)
    else (false, state, some r.2)

/-- Insert-mode key handler (`state_insert`). -/
def state_insert (io : xc_io) (state : xc_state_t) (c : Int) : xc_state_t :=
  let line := state.buffer.lines.getD state.buf_y.toNat default
  let state1 : xc_state_t :=
    if c = 8 ∨ c = 127 then
      if state.buf_x = 0 then
        if state.buf_y = 0 then state
        else
          let buf := state.buffer
          let prev := buf.lines.getD (state.buf_y - 1).toNat default
          let new_buf_x := prev.cap
          let text1 := realloc prev.text (prev.cap + line.cap + 32)
          let text2 := memcpy text1 prev.cap line.text line.cap
          let cap2 := prev.cap + line.cap
          let text3 := text2.set cap2.toNat 0
          let prev2 : xc_line_t := { prev with text := text3, cap := cap2 }
          let lines1 := buf.lines.set (state.buf_y - 1).toNat prev2
          let lines2 :=
            memmove lines1 state.buf_y (state.buf_y + 1) (buf.count - state.buf_y - 1)
          { state with
            buffer := { buf with lines := lines2, count := buf.count - 1 }
            buf_y := state.buf_y - 1
            buf_x := new_buf_x }
      else
        let text1 :=
          memmove line.text (state.buf_x - 1) state.buf_x (line.cap - state.buf_x + 1)
        let line1 : xc_line_t := { line with text := text1, cap := line.cap - 1 }
        { state with
          buffer := { state.buffer with lines := state.buffer.lines.set state.buf_y.toNat line1 }
          buf_x := state.buf_x - 1 }
    else if c = 13 ∨ c = 10 then
      let buf := state.buffer
      let lines1 := realloc buf.lines (buf.count + 1)
      let lines2 :=
        memmove lines1 (state.buf_y + 2) (state.buf_y + 1) (buf.count - state.buf_y - 1)
      let line := lines2.getD state.buf_y.toNat default
      let broken_len := line.cap - state.buf_x
      let new_text :=
        (memcpy (malloc (broken_len + 32)) 0 (line.text.drop state.buf_x.toNat) broken_len).set
          broken_len.toNat 0
      let new_line : xc_line_t :=
        { size := broken_len + 32, cap := broken_len, text := new_text }
      let lines3 := lines2.set (state.buf_y + 1).toNat new_line
      let line1 : xc_line_t :=
        { line with cap := state.buf_x, text := line.text.set state.buf_x.toNat 0 }
      let lines4 := lines3.set state.buf_y.toNat line1
      { state with
        buffer := { buf with lines := lines4, count := buf.count + 1 }
        buf_y := state.buf_y + 1
        buf_x := 0 }
    else if c = 27 then
      (state_write io { state with mode := xc_mode.COMMAND } BACKUP_FILE).2.1
    else
      if !isprint c ∧ c ≠ 9 then state
      else
        let grown : Int × List Int :=
          if line.cap + 2 ≥ line.size then (line.size * 2, realloc line.text (line.size * 2))
          else (line.size, line.text)
        let text1 :=
          memmove grown.2 (state.buf_x + 1) state.buf_x (line.cap - state.buf_x + 1)
        let text2 := text1.set state.buf_x.toNat c
        let line1 : xc_line_t := { size := grown.1, text := text2, cap := line.cap + 1 }
        { state with
          buffer := { state.buffer with lines := state.buffer.lines.set state.buf_y.toNat line1 }
          buf_x := state.buf_x + 1 }
  { state1 with dirty := true }

/-- Command-mode key handler (`state_command`). -/
def state_command (io : xc_io) (state : xc_state_t) (c : Int) : xc_state_t :=
  if c = 105 then { state with mode := xc_mode.INSERT }
  else if c = 113 then (if !state.dirty then { state with running := false } else state)
  else if c = 119 then (state_write io state state.filename).2.1
  else if c = 115 then
    { (state_write io state state.filename).2.1 with running := false }
  else if c = 46 then
    { state with
      buffer := { state.buffer with scroll := state.buffer.count - state.scr_h + 1 }
      buf_y := state.buffer.count - 1 }
  else if c = 44 then
    { state with buffer := { state.buffer with scroll := 0 }, buf_y := 0 }
  else if c = 59 then { state with buf_x := 0 }
  else if c = 39 then { state with buf_x := INT_MAX }
  else state

/-- The cursor and scroll movement at the head of `state_step` (the first `switch`). -/
def state_step_move (state : xc_state_t) (c : Int) : xc_state_t :=
  let cur_y := state.buf_y - state.buffer.scroll
  if c = UP then
    let scroll := if cur_y ≤ 0 then state.buffer.scroll - 1 else state.buffer.scroll
    { state with buffer := { state.buffer with scroll := scroll }, buf_y := state.buf_y - 1 }
  else if c = DOWN then
    if cur_y ≥ state.scr_h - 2 then
      { state with
        buffer := { state.buffer with scroll := state.buffer.scroll + 1 }
        buf_y := state.buf_y + 1 }
    else { state with buf_y := state.buf_y + 1 }
  else if c = LEFT then { state with buf_x := state.buf_x - 1 }
  else if c = RIGHT then { state with buf_x := state.buf_x + 1 }
  else if c = PGUP then
    { state with
      buffer := { state.buffer with scroll := state.buffer.scroll - (state.scr_h - 1) }
      buf_y := state.buf_y - (state.scr_h - 1) }
  else if c = PGDN then
    { state with
      buffer := { state.buffer with scroll := state.buffer.scroll + (state.scr_h - 1) }
      buf_y := state.buf_y + (state.scr_h - 1) }
  else state

/-- The clamp of `buf_x` to the current line, done twice in `state_step`. -/
def clamp_buf_x (state : xc_state_t) : xc_state_t :=
  let line_len := (state.buffer.lines.getD state.buf_y.toNat default).cap
  let buf_x1 := if state.buf_x < 0 then 0 else state.buf_x
  let buf_x2 := if buf_x1 > line_len then line_len else buf_x1
  { state with buf_x := buf_x2 }

/-- The first clamp of `state_step`: scroll, then `buf_y`, then `buf_x`. -/
def state_step_clamp (state : xc_state_t) : xc_state_t :=
  let scroll1 := if state.buffer.scroll < 0 then 0 else state.buffer.scroll
  let scroll2 := if scroll1 > state.buffer.count - 1 then state.buffer.count - 1 else scroll1
  let buf_y1 := if state.buf_y < 0 then 0 else state.buf_y
  let buf_y2 := if buf_y1 ≥ state.buffer.count - 1 then state.buffer.count - 1 else buf_y1
  clamp_buf_x { state with buffer := { state.buffer with scroll := scroll2 }, buf_y := buf_y2 }

/-- One editor step on the decoded key `c` (`state_step` after `get_key`). -/
def state_step (io : xc_io) (state : xc_state_t) (c : Int) : xc_state_t :=
  let state1 := state_step_clamp (state_step_move state c)
  let state2 :=
    match state1.mode with
    | xc_mode.INSERT => state_insert io state1 c
    | xc_mode.COMMAND => state_command io state1 c
  let state3 := clamp_buf_x state2
  let state4 := set_cur_x state3
  { state4 with cur_y := state4.buf_y - state4.buffer.scroll }

/-! ## Observations and reference definitions -/

/-- The content of a line: the first `cap` cells of its block. -/
def xc_line_t.content (l : xc_line_t) : List Int := l.text.take l.cap.toNat

/-- The contents of the lines of a buffer: its first `count` records. -/
def buffer_lines (b : xc_buffer_t) : List (List Int) :=
  (b.lines.take b.count.toNat).map xc_line_t.content

/-- The line records of a buffer: the first `count` cells of the array. -/
def lines_of (b : xc_buffer_t) : List xc_line_t := b.lines.take b.count.toNat

/-- The segments of a byte sequence between line feeds, as the specification of
`load` words it: `cur` is the segment being read, and a non-empty final segment
without a line feed is a segment too. -/
def split_segments_spec : List Int → List Int → List (List Int)
  | cur, [] => if cur = [] then [] else [cur]
  | cur, c :: rest =>
    if c = 10 then cur :: split_segments_spec [] rest else split_segments_spec (cur ++ [c]) rest

/-- The lines `load` produces according to the specification: the segments, or one
empty line when there is none. -/
def load_spec (raw : List Int) : List (List Int) :=
  if split_segments_spec [] raw = [] then [[]] else split_segments_spec [] raw

/-- The state after `memset(&state, 0, sizeof(xc_state_t))` in `main`. -/
def zero_state : xc_state_t :=
  { dirty := false, running := false, syntax_highlight := false, scr_w := 0, scr_h := 0,
    buf_x := 0, buf_y := 0, cur_x := 0, cur_y := 0, filename := [],
    mode := xc_mode.COMMAND, buffer := { count := 0, scroll := 0, lines := [] } }

/-- A file system on which every call succeeds in full. -/
def io_ok : xc_io :=
  { open_fd := fun _ => 3, write_res := fun _ n => n, nl_res := fun _ => 1 }

/-- The line record `state_init` builds for the segment `seg`. -/
def loaded_line (seg : List Int) : xc_line_t :=
  { cap := seg.length, size := (seg.length : Int) + 32, text := seg ++ List.replicate 32 0 }

/-- Every segment followed by a line feed, concatenated. -/
def terminate_lines (segs : List (List Int)) : List Int :=
  (segs.map (fun s => s ++ [10])).flatten

/-- A buffer of the two lines `abc` and `def`, as loaded from a file. -/
def two_line_state : xc_state_t :=
  { zero_state with
    running := true
    buffer :=
      { count := 2
        scroll := 0
        lines :=
          [{ cap := 3, size := 35, text := [97, 98, 99] ++ List.replicate 32 0 },
           { cap := 3, size := 35, text := [100, 101, 102] ++ List.replicate 32 0 }] } }

/-- First half of a line split at offset `x`: the record of line `buf_y` after a newline. -/
def split_first (line : xc_line_t) (x : Int) : xc_line_t :=
  { line with cap := x, text := line.text.set x.toNat 0 }

/-- Second half of a line split at offset `x`: the new record at `buf_y + 1`. -/
def split_second (line : xc_line_t) (x : Int) : xc_line_t :=
  { size := line.cap - x + 32
    cap := line.cap - x
    text :=
      (memcpy (malloc (line.cap - x + 32)) 0 (line.text.drop x.toNat) (line.cap - x)).set
        (line.cap - x).toNat 0 }

/-- The record of the previous line after `line` was merged into it. -/
def merged (prev line : xc_line_t) : xc_line_t :=
  { prev with
    text :=
      (memcpy (realloc prev.text (prev.cap + line.cap + 32)) prev.cap line.text line.cap).set
        (prev.cap + line.cap).toNat 0
    cap := prev.cap + line.cap }

/-- The record of a line after the byte before offset `x` was deleted. -/
def deleted (line : xc_line_t) (x : Int) : xc_line_t :=
  { line with text := memmove line.text (x - 1) x (line.cap - x + 1), cap := line.cap - 1 }

/-- The record of a line after byte `c` was inserted at offset `x`. -/
def inserted (line : xc_line_t) (x c : Int) : xc_line_t :=
  { size := if line.cap + 2 ≥ line.size then line.size * 2 else line.size
    text :=
      (memmove (if line.cap + 2 ≥ line.size then realloc line.text (line.size * 2) else line.text)
        (x + 1) x (line.cap - x + 1)).set x.toNat c
    cap := line.cap + 1 }

/-- A line record is well formed when its length is non-negative and its block
holds the content and the terminating NUL. -/
def line_ok (l : xc_line_t) : Prop := 0 ≤ l.cap ∧ l.cap + 1 ≤ l.text.length

/-- A buffer is well formed when the array holds `count` records and each of
them is well formed. -/
def buffer_ok (b : xc_buffer_t) : Prop :=
  b.count.toNat ≤ b.lines.length ∧ ∀ l ∈ lines_of b, line_ok l

instance (l : xc_line_t) : Decidable (line_ok l) := by
  unfold line_ok
  infer_instance

instance (b : xc_buffer_t) : Decidable (buffer_ok b) := by
  unfold buffer_ok
  infer_instance

/-- The buffer of the three lines `abc`, `def`, `ghi`, with the cursor at `buf_y`, `buf_x`. -/
def three_line_state (buf_y buf_x : Int) : xc_state_t :=
  { zero_state with
    running := true
    mode := xc_mode.INSERT
    scr_w := 80
    scr_h := 24
    buf_y := buf_y
    buf_x := buf_x
    buffer :=
      { count := 3
        scroll := 0
        lines :=
          [{ cap := 3, size := 35, text := [97, 98, 99] ++ List.replicate 32 0 },
           { cap := 3, size := 35, text := [100, 101, 102] ++ List.replicate 32 0 },
           { cap := 3, size := 35, text := [103, 104, 105] ++ List.replicate 32 0 }] } }

/-- The buffer of the two lines `abc` and `def` with the cursor at `buf_y`, `buf_x`. -/
def two_line_state_at (buf_y buf_x : Int) : xc_state_t :=
  { two_line_state with
    mode := xc_mode.INSERT
    scr_w := 80
    scr_h := 24
    buf_y := buf_y
    buf_x := buf_x }

/-- The lengths of a buffer are well formed when the array holds `count` records and
every line has a non-negative length. -/
def lengths_ok (b : xc_buffer_t) : Prop :=
  b.count.toNat ≤ b.lines.length ∧ ∀ l ∈ lines_of b, 0 ≤ l.cap

instance (b : xc_buffer_t) : Decidable (lengths_ok b) := by
  unfold lengths_ok
  infer_instance

/-- The line index of the cursor is within the buffer, whose lengths are well formed. -/
def row_ok (s : xc_state_t) : Prop :=
  1 ≤ s.buffer.count ∧ lengths_ok s.buffer ∧ 0 ≤ s.buf_y ∧ s.buf_y ≤ s.buffer.count - 1

/-- The byte offset of the cursor is within the current line. -/
def col_ok (s : xc_state_t) : Prop :=
  0 ≤ s.buf_x ∧ s.buf_x ≤ (s.buffer.lines.getD s.buf_y.toNat default).cap

/-- The navigation keys delivered by `get_key`. -/
def is_nav_key (c : Int) : Prop :=
  c = UP ∨ c = DOWN ∨ c = LEFT ∨ c = RIGHT ∨ c = PGUP ∨ c = PGDN

instance (c : Int) : Decidable (is_nav_key c) := by
  unfold is_nav_key
  infer_instance

/-- Scroll offset and cursor are within their documented bounds. -/
def in_bounds (s : xc_state_t) : Prop :=
  0 ≤ s.buffer.scroll ∧ s.buffer.scroll ≤ s.buffer.count - 1 ∧
    0 ≤ s.buf_y ∧ s.buf_y ≤ s.buffer.count - 1 ∧
    0 ≤ s.buf_x ∧ s.buf_x ≤ (s.buffer.lines.getD s.buf_y.toNat default).cap

instance (s : xc_state_t) : Decidable (in_bounds s) := by
  unfold in_bounds
  infer_instance

/-- Feed a sequence of decoded keys to `state_step`, one step per key. -/
def run_keys (io : xc_io) (s : xc_state_t) (keys : List Int) : xc_state_t :=
  keys.foldl (state_step io) s

/-- A file system on which `open` fails. -/
def io_open_fails : xc_io :=
  { open_fd := fun _ => -1, write_res := fun _ n => n, nl_res := fun _ => 1 }

/-- A file system on which every `write` of a line stops one byte short. -/
def io_short_write : xc_io :=
  { open_fd := fun _ => 3, write_res := fun _ n => n - 1, nl_res := fun _ => 1 }

/-- The two-line buffer `abc`, `def` in COMMAND mode with unsaved changes. -/
def dirty_state : xc_state_t :=
  { two_line_state with dirty := true, scr_w := 80, scr_h := 24 }

/-- Every line record of the buffer records an allocation larger than its length. -/
def sizes_ok (b : xc_buffer_t) : Prop := ∀ l ∈ lines_of b, l.size ≥ l.cap + 1

instance (b : xc_buffer_t) : Decidable (sizes_ok b) := by
  unfold sizes_ok
  infer_instance

/-- A file of two lines: an empty line and a line of 32 bytes `a`. -/
def long_second_line_file : List Int := [10] ++ List.replicate 32 97 ++ [10]

/-! ## Syntax highlighting and keyboard -/

/-- The highlight state of `draw_line`, `xc_hl_state_t` in the source. -/
inductive xc_hl_state_t where
  | DEFAULT
  | STRING
  | COMMENT
  | PREPROCESSOR
deriving DecidableEq, Repr

/-- The bytes of a string literal, as C `char` values. -/
def bytes (s : String) : List Int := s.toList.map (fun ch => (ch.toNat : Int))

/-- The escape sequence `"\e[32m"`. -/
def TYPE_PREFIX : List Int := [27, 91, 51, 50, 109]

/-- The escape sequence `"\e[35m"`. -/
def STRING_PREFIX : List Int := [27, 91, 51, 53, 109]

/-- The escape sequence `"\e[90m"`. -/
def COMMENT_PREFIX : List Int := [27, 91, 57, 48, 109]

/-- The escape sequence `"\e[33m"`. -/
def KEYWORD_PREFIX : List Int := [27, 91, 51, 51, 109]

/-- The escape sequence `"\e[36m"`. -/
def PREPROCESSOR_PREFIX : List Int := [27, 91, 51, 54, 109]

/-- The escape sequence `"\e[0m"` that ends a style. -/
def STYLE_RESET : List Int := [27, 91, 48, 109]

/-- The preprocessor directives, `proc` in the source. -/
def proc : List (List Int) :=
  ["#include", "#define", "#undef", "#if", "#ifdef", "#ifndef", "#error", "#pragma"].map bytes

/-- The type names, `types` in the source. -/
def types : List (List Int) :=
  ["void", "int", "char", "float", "long", "short", "double", "signed", "unsigned", "_Bool",
    "const", "static", "size_t", "int8_t", "int16_t", "int32_t", "int64_t", "uint8_t",
    "uint16_t", "uint32_t", "uint64_t", "bool"].map bytes

/-- The keywords, `keywords` in the source. -/
def keywords : List (List Int) :=
  ["auto", "break", "case", "continue", "default", "do", "else", "extern", "for", "goto",
    "if", "inline", "register", "return", "sizeof", "switch", "typedef", "volatile", "while",
    "struct", "enum", "true", "false"].map bytes

/-- The delimiter bytes (`is_delim`): space and `( ) ; [ ] { } / % = ! < > & | ^ ~ ? : * ' "`. -/
def is_delim (c : Int) : Bool :=
  decide (c = 32 ∨ c = 40 ∨ c = 41 ∨ c = 59 ∨ c = 91 ∨ c = 93 ∨ c = 123 ∨ c = 125 ∨
    c = 47 ∨ c = 37 ∨ c = 61 ∨ c = 33 ∨ c = 60 ∨ c = 62 ∨ c = 38 ∨ c = 124 ∨
    c = 94 ∨ c = 126 ∨ c = 63 ∨ c = 58 ∨ c = 42 ∨ c = 39 ∨ c = 34)

/-- Whether `token` equals a member of `array` (`is_token`, by `strcmp`). -/
def is_token (token : List Int) (array : List (List Int)) : Bool :=
  array.any (fun a => decide (token = a))

/-- The bytes `flush_token` prints for `token`.  The guard `tok_len == 0` of the source
compares the pointer and never holds; an empty token prints nothing either way. -/
def flush_token (token : List Int) : List Int :=
  if is_token token types then TYPE_PREFIX ++ token ++ STYLE_RESET
  else if is_token token keywords then KEYWORD_PREFIX ++ token ++ STYLE_RESET
  else if is_token token proc then PREPROCESSOR_PREFIX ++ token ++ STYLE_RESET
  else token

/-- What `draw_line` does on a line: the bytes printed, the highlight state at the end
of each loop iteration, and the tokens passed to `flush_token`, in order. -/
structure draw_trace where
  out : List Int
  states : List xc_hl_state_t
  flushed : List (List Int)
deriving DecidableEq, Repr

/-- One loop iteration that prints `o`, ends in state `hl` and flushes the tokens `fl`,
followed by the rest of the run `t`. -/
def draw_trace.step (o : List Int) (hl : xc_hl_state_t) (fl : List (List Int))
    (t : draw_trace) : draw_trace :=
  { out := o ++ t.out, states := hl :: t.states, flushed := fl ++ t.flushed }

/-- The loop of `draw_line`: `p` is the previous byte of the line (0 at the start), the
list holds the bytes of the C string from the current byte `c` on (so the next byte `n`
is its second element, or the NUL), and `token` is the token buffer up to `tok_len`.
The `//` branch consumes two bytes (`i++`).  After the last byte the pending token is
flushed and the newline printed. -/
def draw_loop : Int → List Int → xc_hl_state_t → List Int → draw_trace
  | _, [], _, token => { out := flush_token token ++ [10], states := [], flushed := [token] }
  | p, c :: rest, hl_state, token =>
    let n := rest.headD 0
    if c = 9 then
      draw_trace.step (List.replicate TAB_WIDTH.toNat 32) hl_state []
        (draw_loop c rest hl_state token)
    else
      match hl_state with
      | xc_hl_state_t.DEFAULT =>
        if c = 34 ∧ p ≠ 92 ∧ p ≠ 39 then
          draw_trace.step (flush_token token ++ (STRING_PREFIX ++ [c])) xc_hl_state_t.STRING
            [token] (draw_loop c rest xc_hl_state_t.STRING [])
        else if c = 35 ∧ n ≠ 39 then
          draw_trace.step (PREPROCESSOR_PREFIX ++ [c]) xc_hl_state_t.PREPROCESSOR []
            (draw_loop c rest xc_hl_state_t.PREPROCESSOR token)
        else if c = 47 ∧ n = 47 then
          draw_trace.step (COMMENT_PREFIX ++ [c, n]) xc_hl_state_t.COMMENT []
            (match rest with
              | [] => { out := flush_token token ++ [10], states := [], flushed := [token] }
              | _ :: rest2 => draw_loop n rest2 xc_hl_state_t.COMMENT token)
        else if is_delim c ∨ n = 0 then
          draw_trace.step (flush_token token ++ [c]) xc_hl_state_t.DEFAULT [token]
            (draw_loop c rest xc_hl_state_t.DEFAULT [])
        else
          draw_trace.step [] xc_hl_state_t.DEFAULT []
            (draw_loop c rest xc_hl_state_t.DEFAULT (token ++ [c]))
      | xc_hl_state_t.STRING =>
        if c = 34 ∧ p ≠ 92 then
          draw_trace.step (STRING_PREFIX ++ [c] ++ STYLE_RESET) xc_hl_state_t.DEFAULT []
            (draw_loop c rest xc_hl_state_t.DEFAULT token)
        else
          draw_trace.step (STRING_PREFIX ++ [c]) xc_hl_state_t.STRING []
            (draw_loop c rest xc_hl_state_t.STRING token)
      | xc_hl_state_t.COMMENT =>
        draw_trace.step (COMMENT_PREFIX ++ [c]) xc_hl_state_t.COMMENT []
          (draw_loop c rest xc_hl_state_t.COMMENT token)
      | xc_hl_state_t.PREPROCESSOR =>
        draw_trace.step (PREPROCESSOR_PREFIX ++ [c]) xc_hl_state_t.PREPROCESSOR []
          (draw_loop c rest xc_hl_state_t.PREPROCESSOR token)

/-- The bytes of a C string: the cells of the block before the first NUL. -/
def c_string (text : List Int) : List Int := text.takeWhile (fun b => b ≠ 0)

/-- Render line `line_num` (`draw_line`). -/
def draw_line (state : xc_state_t) (line_num : Int) : draw_trace :=
  if line_num > state.buffer.count then { out := [], states := [], flushed := [] }
  else
    draw_loop 0 (c_string (state.buffer.lines.getD line_num.toNat default).text)
      xc_hl_state_t.DEFAULT []

/-- Decode one key (`get_key`).  `input` holds the bytes that arrive on the terminal
(within the timeout, once an escape byte was read); a `read` with no byte left does
not return 1.  `select_error` says whether `select` fails, and `esc2` is the
indeterminate content of `esc[2]` when its `read` stores nothing.  Returns the key and
the bytes left unread. -/
def get_key (input : List Int) (select_error : Bool) (esc2 : Int) : Int × List Int :=
  match input with
  | [] => (-1, [])
  | c :: rest =>
    if c ≠ 27 then (c, rest)
    else if select_error then (-1, rest)
    else
      match rest with
      | [] => (27, [])
      | e0 :: rest1 =>
        match rest1 with
        | [] => (27, [])
        | e1 :: rest2 =>
          if e0 ≠ 91 then (27, rest2)
          else if e1 = 65 ∨ e1 = 66 ∨ e1 = 67 ∨ e1 = 68 then (e1 - 65, rest2)
          else if e1 = 53 ∨ e1 = 54 then
            let e2 := rest2.headD esc2
            if e2 ≠ 126 then (27, rest2.tail) else (e1 - 48 - 1, rest2.tail)
          else (27, rest2)

/-- The cursor is on a visible content row: `buf_y - scroll` is in `[0, scr_h - 2]`. -/
def row_visible (s : xc_state_t) : Prop :=
  0 ≤ s.buf_y - s.buffer.scroll ∧ s.buf_y - s.buffer.scroll ≤ s.scr_h - 2

instance (s : xc_state_t) : Decidable (row_visible s) := by
  unfold row_visible
  infer_instance

/-- Remove the style escape sequences (ESC up to the next `m`) from printed bytes;
the flag says whether the current byte lies inside such a sequence. -/
def strip_styles : Bool → List Int → List Int
  | _, [] => []
  | true, c :: rest => if c = 109 then strip_styles false rest else strip_styles true rest
  | false, c :: rest => if c = 27 then strip_styles true rest else c :: strip_styles false rest

/-- The bytes of a line with every tab replaced by `TAB_WIDTH` spaces. -/
def expand_tabs (line : List Int) : List Int :=
  line.flatMap (fun c => if c = 9 then List.replicate TAB_WIDTH.toNat 32 else [c])

/-- The state after loading a file that holds the one line `line`. -/
def state_of_line (line : List Int) : xc_state_t :=
  state_init zero_state [] (line ++ [10]) 80 24

/-- The display width of one byte: `TAB_WIDTH` for a tab, 1 for any other byte. -/
def byte_width (b : Int) : Int := if b = 9 then TAB_WIDTH else 1

/-- The one-line buffer `a<TAB>bc` with the cursor after the tab. -/
def tab_line_state : xc_state_t :=
  { state_of_line [97, 9, 98, 99] with buf_x := 2 }

/-- Several loop iterations that print `o`, pass through the states `hs` and flush the
tokens `fl`, followed by the rest of the run `t`. -/
def draw_trace.prepend (o : List Int) (hs : List xc_hl_state_t) (fl : List (List Int))
    (t : draw_trace) : draw_trace :=
  { out := o ++ t.out, states := hs ++ t.states, flushed := fl ++ t.flushed }

/-- A token holds no `#`, or ends with one. -/
def hash_free_or_last (t : List Int) : Prop := 35 ∉ t ∨ t.getLast? = some 35

/-- The token buffer of `draw_loop` holds no `#`, or it ends with a `#` that was just
accumulated in DEFAULT because the current byte is a single quote. -/
def token_inv (token : List Int) (hl : xc_hl_state_t) (cs : List Int) : Prop :=
  35 ∉ token ∨ (token.getLast? = some 35 ∧ hl = xc_hl_state_t.DEFAULT ∧ cs.head? = some 39)

/-- The block of every line is at least as large as its recorded `size`. -/
def alloc_ok (b : xc_buffer_t) : Prop := ∀ l ∈ lines_of b, l.size ≤ l.text.length

instance (b : xc_buffer_t) : Decidable (alloc_ok b) := by
  unfold alloc_ok
  infer_instance

/-- The block of a line after the optional `realloc` of the insert branch. -/
def grown_block (line : xc_line_t) : List Int :=
  if line.cap + 2 ≥ line.size then realloc line.text (line.size * 2) else line.text

/-- The keys `i`, 31 times `x`, 31 times backspace, Down, Left, Left, backspace and 31
times `y`. -/
def stale_size_keys : List Int :=
  [105] ++ List.replicate 31 120 ++ List.replicate 31 127 ++ [DOWN, LEFT, LEFT, 127]
    ++ List.replicate 31 121

/-- The state reached by `stale_size_keys` on the file of the two lines `ab` and `cd`: the
merge left one line whose recorded `size` exceeds its block. -/
def stale_size_state : xc_state_t :=
  run_keys io_ok (state_init zero_state [] [97, 98, 10, 99, 100, 10] 80 24) stale_size_keys

/-! ## Loading and saving -/

theorem state_init_count_seg (seg rest : List Int) (c : Int) (h : (10 : Int) ∉ seg) :
    state_init_count (seg ++ rest) c = state_init_count rest c := by
  induction seg generalizing c with
  | nil => rfl
  | cons x xs ih =>
    have hx : x ≠ 10 := fun e => h (by simp [e])
    have hxs : (10 : Int) ∉ xs := fun e => h (by simp [e])
    simp [state_init_count, hx, ih _ hxs]

theorem state_init_count_segs (segs : List (List Int)) (tail : List Int) (c : Int)
    (h : ∀ s ∈ segs, (10 : Int) ∉ s) (ht : (10 : Int) ∉ tail) :
    state_init_count (terminate_lines segs ++ tail) c = c + segs.length := by
  induction segs generalizing c with
  | nil =>
    have := state_init_count_seg tail [] c ht
    simpa [terminate_lines, state_init_count] using this
  | cons s ss ih =>
    have hs : (10 : Int) ∉ s := h s (by simp)
    have hss : ∀ t ∈ ss, (10 : Int) ∉ t := fun t ht => h t (by simp [ht])
    have e : terminate_lines (s :: ss) ++ tail = s ++ (10 :: (terminate_lines ss ++ tail)) := by
      simp [terminate_lines]
    rw [e, state_init_count_seg _ _ _ hs]
    simp only [state_init_count, if_true]
    rw [ih _ hss]
    simp
    omega

theorem state_init_fill_seg (raw seg rest : List Int) (i last cl : Int)
    (lines : List xc_line_t) (h : (10 : Int) ∉ seg) :
    state_init_fill raw (seg ++ rest) i last cl lines
      = state_init_fill raw rest (i + seg.length) last cl lines := by
  induction seg generalizing i with
  | nil => simp
  | cons x xs ih =>
    have hx : x ≠ 10 := fun e => h (by simp [e])
    have hxs : (10 : Int) ∉ xs := fun e => h (by simp [e])
    simp only [List.cons_append, state_init_fill, hx, if_false, List.append_eq]
    rw [ih _ hxs]
    congr 1
    simp only [List.length_cons]
    push_cast
    omega

theorem memcpy_loaded (seg rest : List Int) :
    memcpy (calloc ((seg.length : Int) + 32)) 0 (seg ++ rest) seg.length
      = seg ++ List.replicate 32 0 := by
  have e : ((seg.length : Int) + 32).toNat = seg.length + 32 := by omega
  simp [memcpy, calloc, e]

theorem take_succ_set {α : Type} (l : List α) (n : Nat) (a : α) (h : n < l.length) :
    (l.set n a).take (n + 1) = l.take n ++ [a] := by
  rw [List.set_eq_take_append_cons_drop, if_pos h]
  have hmin : min n l.length = n := by omega
  rw [List.take_append_eq_append_take]
  simp [List.take_take, hmin]

theorem drop_succ_set {α : Type} (l : List α) (n k : Nat) (a : α) :
    (l.set n a).drop (n + 1 + k) = l.drop (n + 1 + k) := by
  rw [List.drop_set_of_lt]
  omega

theorem state_init_fill_segs (raw : List Int) (segs : List (List Int)) :
    ∀ (done tail : List Int) (cl : Nat) (lines : List xc_line_t),
      (∀ s ∈ segs, (10 : Int) ∉ s) → raw = done ++ (terminate_lines segs ++ tail) →
      cl + segs.length ≤ lines.length → (10 : Int) ∉ tail →
      state_init_fill raw (terminate_lines segs ++ tail) done.length done.length cl lines
        = lines.take cl ++ segs.map loaded_line ++ lines.drop (cl + segs.length) := by
  induction segs with
  | nil =>
    intro done tail cl lines _ _ _ ht
    have := state_init_fill_seg raw tail [] done.length done.length cl lines ht
    simp only [List.append_nil] at this
    simp [terminate_lines, this, state_init_fill]
  | cons s ss ih =>
    intro done tail cl lines h hraw hlen ht
    have hs : (10 : Int) ∉ s := h s (by simp)
    have hss : ∀ t ∈ ss, (10 : Int) ∉ t := fun t ht => h t (by simp [ht])
    have e : terminate_lines (s :: ss) ++ tail = s ++ (10 :: (terminate_lines ss ++ tail)) := by
      simp [terminate_lines]
    have hdrop : raw.drop done.length = s ++ (10 :: (terminate_lines ss ++ tail)) := by
      rw [hraw, List.drop_left, e]
    rw [e, state_init_fill_seg _ _ _ _ _ _ _ hs]
    simp only [state_init_fill, if_true]
    have e1 : (done.length : Int) + s.length - done.length = s.length := by omega
    have e2 : ((done.length : Int)).toNat = done.length := by omega
    have e3 : ((cl : Int)).toNat = cl := by omega
    rw [e1, e2, e3, hdrop, memcpy_loaded]
    have hraw2 : raw = (done ++ s ++ [10]) ++ (terminate_lines ss ++ tail) := by
      rw [hraw, e]; simp
    have hl2 : (cl + 1) + ss.length ≤ (lines.set cl (loaded_line s)).length := by
      simp at hlen ⊢; omega
    have := ih (done ++ s ++ [10]) tail (cl + 1) (lines.set cl (loaded_line s)) hss hraw2 hl2 ht
    have e4 : (((done ++ s ++ [10]).length : Nat) : Int) = (done.length : Int) + s.length + 1 := by
      simp only [List.length_append, List.length_singleton]
      push_cast
      omega
    have e5 : (((cl + 1 : Nat)) : Int) = (cl : Int) + 1 := by simp
    rw [e4, e5] at this
    have hl3 : cl < lines.length := by simp at hlen; omega
    have e6 : xc_line_t.mk (s.length : Int) ((s.length : Int) + 32)
        (s ++ List.replicate 32 0) = loaded_line s := rfl
    rw [e6, this, take_succ_set _ _ _ hl3, drop_succ_set]
    simp only [List.map_cons, List.length_cons, List.append_assoc, List.singleton_append]
    congr 3
    omega

theorem content_loaded_line (seg : List Int) : (loaded_line seg).content = seg := by
  simp [loaded_line, xc_line_t.content]

theorem state_init_segs (state : xc_state_t) (path : List Int) (segs : List (List Int))
    (tail : List Int) (ws_col ws_row : Int) (h : ∀ s ∈ segs, (10 : Int) ∉ s)
    (ht : (10 : Int) ∉ tail) (hne : segs ≠ []) :
    (state_init state path (terminate_lines segs ++ tail) ws_col ws_row).buffer
      = { count := segs.length, scroll := 0, lines := segs.map loaded_line } := by
  have hc := state_init_count_segs segs tail 0 h ht
  have hpos : 0 < segs.length := List.length_pos.mpr hne
  have hf := state_init_fill_segs (terminate_lines segs ++ tail) segs [] tail 0
    (List.replicate segs.length default) h (by simp) (by simp) ht
  simp only [List.length_nil, Nat.cast_zero, List.take_zero, List.nil_append, Nat.zero_add] at hf
  have hd : List.drop segs.length (List.replicate segs.length (default : xc_line_t)) = [] := by
    simp
  rw [hd, List.append_nil] at hf
  have hne0 : ((0 : Int) + (segs.length : Int)) ≠ 0 := by omega
  have htn : ((0 : Int) + (segs.length : Int)).toNat = segs.length := by omega
  simp only [state_init, hc, hne0, if_false, htn, hf]
  simp

theorem state_write_loop_ok (io : xc_io) (lines : List xc_line_t)
    (hnl : ∀ j, io.nl_res j = 1) (hwr : ∀ j n, io.write_res j n = n) :
    ∀ (k i : Nat) (out : List Int), i + k ≤ lines.length →
      state_write_loop io lines k i out
        = (true, out ++ terminate_lines (((lines.drop i).take k).map xc_line_t.content)) := by
  intro k
  induction k with
  | zero => intro i out _; simp [state_write_loop, terminate_lines]
  | succ k ih =>
    intro i out hik
    have hi : i < lines.length := by omega
    have e1 : ((i : Int)).toNat = i := by omega
    have e2 : ((i : Int) + 1) = ((i + 1 : Nat) : Int) := by push_cast; rfl
    simp only [state_write_loop, hwr, hnl, e1, ne_eq, not_true_eq_false, if_false]
    rw [e2, ih (i + 1) _ (by omega), List.getD_eq_getElem _ _ hi,
      List.drop_eq_getElem_cons hi, List.take_succ_cons]
    simp only [terminate_lines, List.map_cons, List.flatten_cons, xc_line_t.content]
    simp

theorem buffer_lines_loaded (segs : List (List Int)) :
    buffer_lines { count := segs.length, scroll := 0, lines := segs.map loaded_line } = segs := by
  have e : ((segs.length : Int)).toNat = segs.length := by omega
  have hc : xc_line_t.content ∘ loaded_line = id := by
    funext seg
    exact content_loaded_line seg
  simp only [buffer_lines, e]
  rw [List.take_of_length_le (by simp), List.map_map, hc, List.map_id]

/-- C2: for a buffer with `count ≥ 1` whose array holds `count` records and whose
lines contain no line feed, on a file system where every call succeeds in full,
`state_write` succeeds and `state_init` on the bytes it wrote yields a buffer with the
same line count and the same content in every line. -/
theorem load_serialize_roundtrip (io : xc_io) (state init_state : xc_state_t)
    (filename path : List Int) (ws_col ws_row : Int)
    (hcount : 1 ≤ state.buffer.count)
    (halloc : state.buffer.count.toNat ≤ state.buffer.lines.length)
    (hlf : ∀ l ∈ buffer_lines state.buffer, (10 : Int) ∉ l)
    (hopen : 0 ≤ io.open_fd filename)
    (hwr : ∀ i n, io.write_res i n = n) (hnl : ∀ i, io.nl_res i = 1) :
    ∃ out : List Int,
      state_write io state filename = (true, { state with dirty := false }, some out) ∧
      (state_init init_state path out ws_col ws_row).buffer.count = state.buffer.count ∧
      buffer_lines (state_init init_state path out ws_col ws_row).buffer
        = buffer_lines state.buffer := by
  refine ⟨terminate_lines (buffer_lines state.buffer), ?_, ?_⟩
  · have hl := state_write_loop_ok io state.buffer.lines hnl hwr state.buffer.count.toNat 0 []
      (by omega)
    have hfd : ¬ io.open_fd filename < 0 := by omega
    simp only [Nat.cast_zero, List.drop_zero, List.nil_append] at hl
    simp only [state_write, hfd, if_false, hl, if_true, buffer_lines]
  · have hlen : (buffer_lines state.buffer).length = state.buffer.count.toNat := by
      simp [buffer_lines, halloc]
    have hne : buffer_lines state.buffer ≠ [] := by
      intro e
      rw [e] at hlen
      simp at hlen
      omega
    have hb := state_init_segs init_state path (buffer_lines state.buffer) [] ws_col ws_row
      hlf (by simp) hne
    rw [List.append_nil] at hb
    rw [hb]
    constructor
    · simp only [hlen]
      omega
    · exact buffer_lines_loaded _

theorem load_serialize_roundtrip_witness :
    ∃ out : List Int,
      state_write io_ok two_line_state [] = (true, { two_line_state with dirty := false }, some out) ∧
      (state_init zero_state [] out 80 24).buffer.count = two_line_state.buffer.count ∧
      buffer_lines (state_init zero_state [] out 80 24).buffer
        = buffer_lines two_line_state.buffer :=
  load_serialize_roundtrip io_ok two_line_state zero_state [] [] 80 24 (by decide) (by decide)
    (by decide) (by decide) (fun _ _ => rfl) (fun _ => rfl)

/-- C1: `state_init` drops the bytes after the last line feed.  The file `abc\ndef`
loads as the single line `abc` and the file `abc` as one empty line, where the
specification of `load` gives the lines `abc`, `def` and the line `abc`. -/
theorem state_init_drops_unterminated_tail :
    buffer_lines (state_init zero_state [] [97, 98, 99, 10, 100, 101, 102] 80 24).buffer
        = [[97, 98, 99]] ∧
      load_spec [97, 98, 99, 10, 100, 101, 102] = [[97, 98, 99], [100, 101, 102]] ∧
      buffer_lines (state_init zero_state [] [97, 98, 99] 80 24).buffer = [[]] ∧
      load_spec [97, 98, 99] = [[97, 98, 99]] := by
  decide

/-! ## Blocks: lists under `realloc` and `memmove` -/

theorem getD_append_length {α : Type} (A B : List α) (x d : α) :
    (A ++ x :: B).getD A.length d = x := by
  induction A with
  | nil => rfl
  | cons a A ih => simpa using ih

theorem set_append_length {α : Type} (A B : List α) (x v : α) :
    (A ++ x :: B).set A.length v = A ++ v :: B := by
  induction A with
  | nil => rfl
  | cons a A ih => simp [ih]

theorem realloc_append {α : Type} [Inhabited α] (P Q : List α) (n : Int) (k : Nat)
    (hn : n.toNat = P.length + k) :
    realloc (P ++ Q) n = P ++ (Q ++ List.replicate (P.length + k) default).take k := by
  simp only [realloc, hn, List.append_assoc, List.take_append]

theorem memmove_up {α : Type} (A B D : List α) (x : α) (d s n : Int)
    (hd : d.toNat = A.length + 2) (hs : s.toNat = A.length + 1) (hn : n.toNat = B.length)
    (hD : D.length = 1) :
    memmove (A ++ x :: (B ++ D)) d s n = A ++ x :: ((B ++ D).take 1 ++ B) := by
  have h1 : A.length + 2 + B.length = A.length + (B.length + 1 + 1) := by omega
  have h2 : List.drop (B.length + 1) (B ++ D) = [] := by
    apply List.drop_of_length_le
    simp [hD]
  simp only [memmove, hd, hs, hn, h1, List.take_append, List.drop_append, List.take_succ_cons,
    List.drop_succ_cons, List.drop_zero, List.take_left, h2, List.append_nil,
    List.append_assoc, List.cons_append]

theorem memmove_down {α : Type} (A B C : List α) (p l : α) (d s n : Int)
    (hd : d.toNat = A.length + 1) (hs : s.toNat = A.length + 2) (hn : n.toNat = B.length) :
    memmove (A ++ p :: l :: (B ++ C)) d s n
      = A ++ p :: (B ++ (l :: (B ++ C)).drop B.length) := by
  have h1 : A.length + 1 + B.length = A.length + (B.length + 1) := by omega
  simp only [memmove, hd, hs, hn, h1, List.take_append, List.drop_append, List.take_succ_cons,
    List.drop_succ_cons, List.drop_zero, List.take_left, List.take_zero, List.append_nil,
    List.append_assoc, List.cons_append, List.nil_append]

/-! ## `state_insert`, branch by branch -/

theorem state_write_state (io : xc_io) (state : xc_state_t) (filename : List Int) :
    (state_write io state filename).2.1 = state ∨
      (state_write io state filename).2.1 = { state with dirty := false } := by
  simp only [state_write]
  split_ifs <;> simp

theorem state_insert_newline_eq (io : xc_io) (state : xc_state_t) (c : Int)
    (A B C : List xc_line_t) (line : xc_line_t) (hc : c = 13 ∨ c = 10)
    (hl : state.buffer.lines = A ++ line :: (B ++ C))
    (hy : state.buf_y = A.length) (hn : state.buffer.count = A.length + 1 + B.length) :
    state_insert io state c =
      { state with
        buffer :=
          { state.buffer with
            lines := A ++ split_first line state.buf_x :: split_second line state.buf_x :: B
            count := state.buffer.count + 1 }
        buf_y := state.buf_y + 1
        buf_x := 0
        dirty := true } := by
  have hc1 : ¬ (c = 8 ∨ c = 127) := by omega
  have e1 : (state.buffer.count + 1).toNat = (A ++ line :: B).length + 1 := by
    simp only [List.length_append, List.length_cons]; omega
  have e2 : (state.buf_y + 2).toNat = A.length + 2 := by omega
  have e3 : (state.buf_y + 1).toNat = A.length + 1 := by omega
  have e4 : (state.buffer.count - state.buf_y - 1).toNat = B.length := by omega
  have e5 : state.buf_y.toNat = A.length := by omega
  have hl1 : state.buffer.lines = (A ++ line :: B) ++ C := by rw [hl]; simp
  have r1 := realloc_append (A ++ line :: B) C (state.buffer.count + 1) 1 e1
  rw [← hl1] at r1
  obtain ⟨e, he⟩ : ∃ e, (C ++ List.replicate ((A ++ line :: B).length + 1) default).take 1 = [e] := by
    cases C with
    | nil => exact ⟨default, by simp [List.replicate_succ]⟩
    | cons x xs => exact ⟨x, by simp⟩
  rw [he] at r1
  have r1b : realloc state.buffer.lines (state.buffer.count + 1) = A ++ line :: (B ++ [e]) := by
    rw [r1]; simp
  have r2 := memmove_up A B [e] line (state.buf_y + 2) (state.buf_y + 1)
    (state.buffer.count - state.buf_y - 1) e2 e3 e4 rfl
  obtain ⟨e', he'⟩ : ∃ e', (B ++ [e]).take 1 = [e'] := by
    cases B with
    | nil => exact ⟨e, by simp⟩
    | cons x xs => exact ⟨x, by simp⟩
  rw [he'] at r2
  have r3 : (A ++ line :: ([e'] ++ B)).getD A.length default = line := getD_append_length _ _ _ _
  have r4 : ∀ v, (A ++ line :: ([e'] ++ B)).set (A.length + 1) v = A ++ line :: v :: B := by
    intro v
    have := set_append_length (A ++ [line]) B e' v
    simp only [List.length_append, List.length_singleton, List.append_assoc,
      List.singleton_append] at this
    simp
  have r5 : ∀ v w, (A ++ line :: w :: B).set A.length v = A ++ v :: w :: B :=
    fun v w => set_append_length A (w :: B) line v
  simp only [state_insert, hc1, hc, if_false, if_true, r1b, r2, e5, r3, e3, r4, r5, split_first,
    split_second]

theorem state_insert_merge_eq (io : xc_io) (state : xc_state_t) (c : Int)
    (A B C : List xc_line_t) (prev line : xc_line_t) (hc : c = 8 ∨ c = 127)
    (hl : state.buffer.lines = A ++ prev :: line :: (B ++ C))
    (hy : state.buf_y = A.length + 1) (hx : state.buf_x = 0)
    (hn : state.buffer.count = A.length + 2 + B.length) :
    state_insert io state c =
      { state with
        buffer :=
          { state.buffer with
            lines := A ++ merged prev line :: (B ++ (line :: (B ++ C)).drop B.length)
            count := state.buffer.count - 1 }
        buf_y := state.buf_y - 1
        buf_x := prev.cap
        dirty := true } := by
  have hy0 : state.buf_y ≠ 0 := by omega
  have e1 : (state.buf_y - 1).toNat = A.length := by omega
  have e2 : state.buf_y.toNat = A.length + 1 := by omega
  have e3 : (state.buf_y + 1).toNat = A.length + 2 := by omega
  have e4 : (state.buffer.count - state.buf_y - 1).toNat = B.length := by omega
  have r0 : (A ++ prev :: line :: (B ++ C)).getD (A.length + 1) default = line := by
    have := getD_append_length (A ++ [prev]) (B ++ C) line default
    simpa using this
  have r1 : (A ++ prev :: line :: (B ++ C)).getD A.length default = prev :=
    getD_append_length _ _ _ _
  have r2 : ∀ v, (A ++ prev :: line :: (B ++ C)).set A.length v = A ++ v :: line :: (B ++ C) :=
    fun v => set_append_length A _ prev v
  have r3 := fun v => memmove_down A B C v line state.buf_y (state.buf_y + 1)
    (state.buffer.count - state.buf_y - 1) e2 e3 e4
  simp only [state_insert, hc, hx, hy0, if_false, if_true, hl, e1, e2, r0, r1, r2, r3, merged]

theorem state_insert_delete_eq (io : xc_io) (state : xc_state_t) (c : Int)
    (A BC : List xc_line_t) (line : xc_line_t) (hc : c = 8 ∨ c = 127)
    (hl : state.buffer.lines = A ++ line :: BC)
    (hy : state.buf_y = A.length) (hx : state.buf_x ≠ 0) :
    state_insert io state c =
      { state with
        buffer := { state.buffer with lines := A ++ deleted line state.buf_x :: BC }
        buf_x := state.buf_x - 1
        dirty := true } := by
  have e1 : state.buf_y.toNat = A.length := by omega
  have r1 : (A ++ line :: BC).getD A.length default = line := getD_append_length _ _ _ _
  have r2 : ∀ v, (A ++ line :: BC).set A.length v = A ++ v :: BC :=
    fun v => set_append_length A _ line v
  simp only [state_insert, hc, hx, if_false, if_true, hl, e1, r1, r2, deleted]

theorem state_insert_char_eq (io : xc_io) (state : xc_state_t) (c : Int)
    (A BC : List xc_line_t) (line : xc_line_t) (hc : isprint c = true ∨ c = 9)
    (hl : state.buffer.lines = A ++ line :: BC) (hy : state.buf_y = A.length) :
    state_insert io state c =
      { state with
        buffer := { state.buffer with lines := A ++ inserted line state.buf_x c :: BC }
        buf_x := state.buf_x + 1
        dirty := true } := by
  have hr : c = 9 ∨ (32 ≤ c ∧ c ≤ 126) := by
    rcases hc with h | h
    · right; simpa [isprint] using h
    · left; exact h
  have h1 : ¬ (c = 8 ∨ c = 127) := by omega
  have h2 : ¬ (c = 13 ∨ c = 10) := by omega
  have h3 : ¬ c = 27 := by omega
  have h4 : ¬ ((!isprint c) = true ∧ c ≠ 9) := by
    rcases hc with h | h
    · simp [h]
    · simp [h]
  have e1 : state.buf_y.toNat = A.length := by omega
  have r1 : (A ++ line :: BC).getD A.length default = line := getD_append_length _ _ _ _
  have r2 : ∀ v, (A ++ line :: BC).set A.length v = A ++ v :: BC :=
    fun v => set_append_length A _ line v
  simp only [state_insert, h1, h2, h3, h4, if_false, hl, e1, r1, r2, inserted]
  split_ifs <;> rfl

theorem state_insert_other_eq (io : xc_io) (state : xc_state_t) (c : Int)
    (hc : ((c = 8 ∨ c = 127) ∧ state.buf_x = 0 ∧ state.buf_y = 0) ∨
      (c ≠ 8 ∧ c ≠ 127 ∧ c ≠ 13 ∧ c ≠ 10 ∧ c ≠ 27 ∧ isprint c = false ∧ c ≠ 9)) :
    state_insert io state c = { state with dirty := true } := by
  rcases hc with ⟨h1, h2, h3⟩ | ⟨h1, h2, h3, h4, h5, h6, h7⟩
  · simp only [state_insert, h1, h2, h3, if_true]
  · have g1 : ¬ (c = 8 ∨ c = 127) := by omega
    have g2 : ¬ (c = 13 ∨ c = 10) := by omega
    simp [state_insert, g1, g2, h5, h6, h7]

theorem state_insert_escape_eq (io : xc_io) (state : xc_state_t) :
    state_insert io state 27 = { state with mode := xc_mode.COMMAND, dirty := true } := by
  have h := state_write_state io { state with mode := xc_mode.COMMAND } BACKUP_FILE
  have e : state_insert io state 27 =
      { (state_write io { state with mode := xc_mode.COMMAND } BACKUP_FILE).2.1 with
        dirty := true } := by
    simp [state_insert]
  rw [e]
  rcases h with h | h <;> rw [h]

/-! ## Newline split and backspace merge -/

theorem lines_decomp {α : Type} (arr : List α) (y n : Nat) (hy : y < n) (hn : n ≤ arr.length) :
    ∃ (A B C : List α) (x : α), arr = A ++ x :: (B ++ C) ∧ A.length = y ∧
      A.length + 1 + B.length = n ∧ arr.take n = A ++ x :: B := by
  have hy2 : y < arr.length := by omega
  have h1 : arr.drop (y + 1) = (arr.drop (y + 1)).take (n - y - 1) ++ arr.drop n := by
    have := (List.take_append_drop (n - y - 1) (arr.drop (y + 1))).symm
    rw [List.drop_drop] at this
    have e : y + 1 + (n - y - 1) = n := by omega
    rw [e] at this
    exact this
  have h0 : arr = arr.take y ++ arr[y] :: ((arr.drop (y + 1)).take (n - y - 1) ++ arr.drop n) := by
    rw [← h1, List.getElem_cons_drop, List.take_append_drop]
  have h3 : (arr.take y).length = y := by simp; omega
  have h4 : ((arr.drop (y + 1)).take (n - y - 1)).length = n - y - 1 := by simp; omega
  refine ⟨arr.take y, (arr.drop (y + 1)).take (n - y - 1), arr.drop n, arr[y], h0, h3, ?_, ?_⟩
  · rw [h3, h4]; omega
  · generalize arr.take y = A at h0 h3
    generalize (arr.drop (y + 1)).take (n - y - 1) = B at h0 h4
    generalize arr.drop n = C at h0
    generalize arr[y] = x at h0
    subst h0
    have e : n = A.length + (B.length + 1) := by omega
    rw [e, List.take_append, List.take_succ_cons, List.take_left]

theorem content_split_first (line : xc_line_t) (x : Int) (hx : x ≤ line.cap) :
    (split_first line x).content = line.content.take x.toNat := by
  simp only [xc_line_t.content, split_first, List.take_take]
  have e : min x.toNat line.cap.toNat = x.toNat := by omega
  rw [e, List.set_take]
  apply List.set_eq_of_length_le
  simp

theorem content_split_second (line : xc_line_t) (x : Int) (hx0 : 0 ≤ x) (hx : x ≤ line.cap)
    (hl : line.cap ≤ line.text.length) :
    (split_second line x).content = line.content.drop x.toNat := by
  have e1 : (line.cap - x + 32).toNat = (line.cap - x).toNat + 32 := by omega
  have e2 : line.cap.toNat - x.toNat = (line.cap - x).toNat := by omega
  have e3 : (List.take (line.cap - x).toNat (List.drop x.toNat line.text)).length
      = (line.cap - x).toNat := by
    simp; omega
  simp only [xc_line_t.content, split_second, List.drop_take, memcpy, malloc, e1, e2,
    Int.toNat_zero, List.take_zero, List.nil_append, Nat.zero_add]
  rw [List.set_take, List.take_append_of_le_length (by omega)]
  rw [List.set_eq_of_length_le (by simp)]
  simp

theorem content_merged (prev line : xc_line_t) (hp0 : 0 ≤ prev.cap)
    (hp : prev.cap ≤ prev.text.length) (hl0 : 0 ≤ line.cap) (hl : line.cap ≤ line.text.length) :
    (merged prev line).content = prev.content ++ line.content := by
  have e1 : (prev.cap + line.cap + 32).toNat = prev.cap.toNat + (line.cap.toNat + 32) := by omega
  have e2 : (prev.cap + line.cap).toNat = prev.cap.toNat + line.cap.toNat := by omega
  have e3 : (List.take prev.cap.toNat prev.text).length = prev.cap.toNat := by simp; omega
  have e4 : (List.take line.cap.toNat line.text).length = line.cap.toNat := by simp; omega
  have e5 : List.take prev.cap.toNat (realloc prev.text (prev.cap + line.cap + 32))
      = List.take prev.cap.toNat prev.text := by
    simp only [realloc, e1, List.take_take]
    have : min prev.cap.toNat (prev.cap.toNat + (line.cap.toNat + 32)) = prev.cap.toNat := by
      omega
    rw [this, List.take_append_of_le_length (by omega)]
  simp only [xc_line_t.content, merged, memcpy, e2, e5]
  generalize List.take prev.cap.toNat prev.text = P at e3
  generalize List.take line.cap.toNat line.text = L at e4
  generalize List.drop _ (realloc prev.text _) = R
  have h : List.take (prev.cap.toNat + line.cap.toNat) (P ++ L ++ R) = P ++ L :=
    List.take_left' (by simp [e3, e4])
  rw [List.set_take, h, List.set_eq_of_length_le (by simp [e3, e4])]

theorem buffer_decomp (b : xc_buffer_t) (y : Int) (hok : buffer_ok b) (hy0 : 0 ≤ y)
    (hy1 : y ≤ b.count - 1) :
    ∃ (A B C : List xc_line_t) (line : xc_line_t), b.lines = A ++ line :: (B ++ C) ∧
      y = A.length ∧ b.count = A.length + 1 + B.length ∧ lines_of b = A ++ line :: B := by
  obtain ⟨A, B, C, x, h1, h2, h3, h4⟩ :=
    lines_decomp b.lines y.toNat b.count.toNat (by omega) hok.1
  exact ⟨A, B, C, x, h1, by omega, by omega, h4⟩

theorem content_length (l : xc_line_t) (h : line_ok l) : (l.content.length : Int) = l.cap := by
  have h1 := h.1
  have h2 := h.2
  simp only [xc_line_t.content, List.length_take]
  omega

/-- C5: a newline (or carriage return) typed at cursor `(y, x)` of a well-formed buffer,
with `0 ≤ y ≤ count - 1` and `0 ≤ x ≤ length of line y`, gives `count + 1` lines: the
lines before `y` are unchanged, line `y` is bytes `[0, x)` of the old line `y`, line
`y + 1` is its bytes `[x, length)`, the old lines after `y` follow, and the cursor is
`(y + 1, 0)`. -/
theorem newline_splits_line (io : xc_io) (state : xc_state_t) (c : Int)
    (hc : c = 10 ∨ c = 13) (hok : buffer_ok state.buffer)
    (hy0 : 0 ≤ state.buf_y) (hy1 : state.buf_y ≤ state.buffer.count - 1)
    (hx0 : 0 ≤ state.buf_x)
    (hx1 : state.buf_x ≤ ((buffer_lines state.buffer).getD state.buf_y.toNat []).length) :
    (state_insert io state c).buffer.count = state.buffer.count + 1 ∧
      buffer_lines (state_insert io state c).buffer
        = (buffer_lines state.buffer).take state.buf_y.toNat
          ++ [((buffer_lines state.buffer).getD state.buf_y.toNat []).take state.buf_x.toNat,
              ((buffer_lines state.buffer).getD state.buf_y.toNat []).drop state.buf_x.toNat]
          ++ (buffer_lines state.buffer).drop (state.buf_y.toNat + 1) ∧
      (state_insert io state c).buf_y = state.buf_y + 1 ∧
      (state_insert io state c).buf_x = 0 := by
  obtain ⟨A, B, C, line, hl, hy, hn, hlo⟩ := buffer_decomp state.buffer state.buf_y hok hy0 hy1
  have hbl : buffer_lines state.buffer
      = A.map xc_line_t.content ++ line.content :: B.map xc_line_t.content := by
    have : buffer_lines state.buffer = (lines_of state.buffer).map xc_line_t.content := rfl
    rw [this, hlo]; simp
  have hlen : (A.map xc_line_t.content).length = state.buf_y.toNat := by simp; omega
  have hget : (buffer_lines state.buffer).getD state.buf_y.toNat [] = line.content := by
    rw [hbl, ← hlen]; exact getD_append_length _ _ _ _
  have hlok : line_ok line := hok.2 line (by rw [hlo]; simp)
  have hcl := content_length line hlok
  rw [hget] at hx1 ⊢
  have hxc : state.buf_x ≤ line.cap := by omega
  have hc' : c = 13 ∨ c = 10 := by omega
  rw [state_insert_newline_eq io state c A B C line hc' hl hy hn]
  refine ⟨rfl, ?_, rfl, rfl⟩
  have e1 : (state.buffer.count + 1).toNat
      = (A ++ split_first line state.buf_x :: split_second line state.buf_x :: B).length := by
    simp only [List.length_append, List.length_cons]; omega
  simp only [buffer_lines, e1, List.take_length]
  rw [← buffer_lines, hbl, ← hlen, List.take_left]
  have e2 : (A.map xc_line_t.content).length + 1
      = (A.map xc_line_t.content ++ [line.content]).length := by simp
  have e3 : A.map xc_line_t.content ++ line.content :: B.map xc_line_t.content
      = (A.map xc_line_t.content ++ [line.content]) ++ B.map xc_line_t.content := by simp
  rw [e2, e3, List.drop_left]
  rw [List.map_append, List.map_cons, List.map_cons,
    content_split_first line state.buf_x hxc,
    content_split_second line state.buf_x hx0 hxc (by have := hlok.2; omega)]
  simp

theorem newline_splits_line_witness :
    (10 = 10 ∨ 10 = 13) ∧ buffer_ok (three_line_state 1 1).buffer ∧
      buffer_lines (state_insert io_ok (three_line_state 1 1) 10).buffer
        = [[97, 98, 99], [100], [101, 102], [103, 104, 105]] ∧
      (state_insert io_ok (three_line_state 1 1) 10).buf_y = 2 ∧
      (state_insert io_ok (three_line_state 1 1) 10).buf_x = 0 :=
  have h := newline_splits_line io_ok (three_line_state 1 1) 10 (by decide) (by decide)
    (by decide) (by decide) (by decide) (by decide)
  ⟨by decide, by decide, h.2.1, h.2.2.1, h.2.2.2⟩

/-- C6: a backspace (0x08 or 0x7F) typed at column 0 of line `y` of a well-formed
buffer, with `1 ≤ y ≤ count - 1`, gives `count - 1` lines: the lines before `y - 1`
are unchanged, line `y - 1` is the old line `y - 1` followed by the old line `y`, the
old lines after `y` follow, and the cursor is `(y - 1, length of the old line y - 1)`. -/
theorem backspace_merges_lines (io : xc_io) (state : xc_state_t) (c : Int)
    (hc : c = 8 ∨ c = 127) (hok : buffer_ok state.buffer)
    (hy0 : 1 ≤ state.buf_y) (hy1 : state.buf_y ≤ state.buffer.count - 1)
    (hx : state.buf_x = 0) :
    (state_insert io state c).buffer.count = state.buffer.count - 1 ∧
      buffer_lines (state_insert io state c).buffer
        = (buffer_lines state.buffer).take (state.buf_y.toNat - 1)
          ++ [(buffer_lines state.buffer).getD (state.buf_y.toNat - 1) []
              ++ (buffer_lines state.buffer).getD state.buf_y.toNat []]
          ++ (buffer_lines state.buffer).drop (state.buf_y.toNat + 1) ∧
      (state_insert io state c).buf_y = state.buf_y - 1 ∧
      (state_insert io state c).buf_x
        = ((buffer_lines state.buffer).getD (state.buf_y.toNat - 1) []).length := by
  obtain ⟨A, B0, C, prev, hl, hy, hn, hlo⟩ :=
    buffer_decomp state.buffer (state.buf_y - 1) hok (by omega) (by omega)
  cases B0 with
  | nil => simp at hn; omega
  | cons line B =>
    simp only [List.length_cons] at hn
    have hbl : buffer_lines state.buffer
        = A.map xc_line_t.content
          ++ prev.content :: line.content :: B.map xc_line_t.content := by
      have : buffer_lines state.buffer = (lines_of state.buffer).map xc_line_t.content := rfl
      rw [this, hlo]; simp
    have hlen : (A.map xc_line_t.content).length = state.buf_y.toNat - 1 := by simp; omega
    have hlen2 : (A.map xc_line_t.content ++ [prev.content]).length = state.buf_y.toNat := by
      simp; omega
    have hlen3 : (A.map xc_line_t.content ++ [prev.content, line.content]).length
        = state.buf_y.toNat + 1 := by
      simp; omega
    have hbl2 : buffer_lines state.buffer
        = (A.map xc_line_t.content ++ [prev.content])
          ++ line.content :: B.map xc_line_t.content := by
      rw [hbl]; simp
    have hbl3 : buffer_lines state.buffer
        = (A.map xc_line_t.content ++ [prev.content, line.content])
          ++ B.map xc_line_t.content := by
      rw [hbl]; simp
    have hget1 : (buffer_lines state.buffer).getD (state.buf_y.toNat - 1) [] = prev.content := by
      rw [hbl, ← hlen]; exact getD_append_length _ _ _ _
    have hget2 : (buffer_lines state.buffer).getD state.buf_y.toNat [] = line.content := by
      rw [hbl2, ← hlen2]; exact getD_append_length _ _ _ _
    have htake : (buffer_lines state.buffer).take (state.buf_y.toNat - 1)
        = A.map xc_line_t.content := by
      rw [hbl, ← hlen, List.take_left]
    have hdrop : (buffer_lines state.buffer).drop (state.buf_y.toNat + 1)
        = B.map xc_line_t.content := by
      rw [hbl3, ← hlen3, List.drop_left]
    have hpok : line_ok prev := hok.2 prev (by rw [hlo]; simp)
    have hlok : line_ok line := hok.2 line (by rw [hlo]; simp)
    have hl' : state.buffer.lines = A ++ prev :: line :: (B ++ C) := by rw [hl]; simp
    rw [state_insert_merge_eq io state c A B C prev line hc hl' (by omega) hx (by omega)]
    rw [hget1, hget2, htake, hdrop]
    refine ⟨rfl, ?_, rfl, (content_length prev hpok).symm⟩
    have e1 : (state.buffer.count - 1).toNat = (A ++ merged prev line :: B).length := by
      simp only [List.length_append, List.length_cons]; omega
    have e2 : A ++ merged prev line :: (B ++ (line :: (B ++ C)).drop B.length)
        = (A ++ merged prev line :: B) ++ (line :: (B ++ C)).drop B.length := by simp
    simp only [buffer_lines, e1, e2, List.take_left]
    rw [List.map_append, List.map_cons,
      content_merged prev line hpok.1 (by have := hpok.2; omega) hlok.1
        (by have := hlok.2; omega)]
    simp

theorem backspace_merges_lines_witness :
    (127 = 8 ∨ 127 = 127) ∧ buffer_ok (two_line_state_at 1 0).buffer ∧
      buffer_lines (state_insert io_ok (two_line_state_at 1 0) 127).buffer
        = [[97, 98, 99, 100, 101, 102]] ∧
      (state_insert io_ok (two_line_state_at 1 0) 127).buf_y = 0 ∧
      (state_insert io_ok (two_line_state_at 1 0) 127).buf_x = 3 :=
  have h := backspace_merges_lines io_ok (two_line_state_at 1 0) 127 (by decide) (by decide)
    (by decide) (by decide) (by decide)
  ⟨by decide, by decide, h.2.1, h.2.2.1, h.2.2.2⟩

/-! ## Cursor and line-count invariants -/

theorem buffer_ok_lengths (b : xc_buffer_t) (h : buffer_ok b) : lengths_ok b :=
  ⟨h.1, fun l hl => (h.2 l hl).1⟩

theorem lengths_decomp (b : xc_buffer_t) (y : Int) (hok : lengths_ok b) (hy0 : 0 ≤ y)
    (hy1 : y ≤ b.count - 1) :
    ∃ (A B C : List xc_line_t) (line : xc_line_t), b.lines = A ++ line :: (B ++ C) ∧
      y = A.length ∧ b.count = A.length + 1 + B.length ∧ lines_of b = A ++ line :: B := by
  obtain ⟨A, B, C, x, h1, h2, h3, h4⟩ :=
    lines_decomp b.lines y.toNat b.count.toNat (by omega) hok.1
  exact ⟨A, B, C, x, h1, by omega, by omega, h4⟩

theorem lengths_ok_of (count scroll : Int) (L J : List xc_line_t) (hn : count = L.length)
    (h : ∀ l ∈ L, 0 ≤ l.cap) :
    lengths_ok { count := count, scroll := scroll, lines := L ++ J } := by
  have e : count.toNat = L.length := by omega
  constructor
  · simp only [e, List.length_append]; omega
  · intro l hl
    simp only [lines_of, e, List.take_left] at hl
    exact h l hl

theorem getD_cap_nonneg (s : xc_state_t) (h : row_ok s) :
    0 ≤ (s.buffer.lines.getD s.buf_y.toNat default).cap := by
  obtain ⟨A, B, C, line, hl, hy, _, hlo⟩ := lengths_decomp s.buffer s.buf_y h.2.1 h.2.2.1 h.2.2.2
  have e : s.buf_y.toNat = A.length := by omega
  rw [hl, e, getD_append_length]
  exact h.2.1.2 line (by rw [hlo]; simp)

theorem clamp_buf_x_ok (s : xc_state_t) (h : row_ok s) :
    row_ok (clamp_buf_x s) ∧ col_ok (clamp_buf_x s) := by
  have hc := getD_cap_nonneg s h
  refine ⟨h, ?_⟩
  simp only [col_ok, clamp_buf_x]
  split_ifs <;> omega

theorem state_command_row_ok (io : xc_io) (s : xc_state_t) (c : Int) (h : row_ok s) :
    row_ok (state_command io s c) := by
  obtain ⟨h1, h2, h3, h4⟩ := h
  simp only [state_command]
  split_ifs
  · exact ⟨h1, h2, h3, h4⟩
  · exact ⟨h1, h2, h3, h4⟩
  · exact ⟨h1, h2, h3, h4⟩
  · rcases state_write_state io s s.filename with e | e <;> rw [e] <;> exact ⟨h1, h2, h3, h4⟩
  · rcases state_write_state io s s.filename with e | e <;> rw [e] <;> exact ⟨h1, h2, h3, h4⟩
  · refine ⟨h1, h2, ?_, ?_⟩
    · show 0 ≤ s.buffer.count - 1
      omega
    · exact le_refl _
  · exact ⟨h1, h2, le_refl _, by show (0 : Int) ≤ s.buffer.count - 1; omega⟩
  · exact ⟨h1, h2, h3, h4⟩
  · exact ⟨h1, h2, h3, h4⟩
  · exact ⟨h1, h2, h3, h4⟩

theorem state_insert_ok (io : xc_io) (s : xc_state_t) (c : Int) (h : row_ok s)
    (hx : col_ok s) : row_ok (state_insert io s c) ∧ col_ok (state_insert io s c) := by
  obtain ⟨h1, h2, h3, h4⟩ := h
  obtain ⟨hx0, hx1⟩ := hx
  obtain ⟨A, B, C, line, hl, hy, hn, hlo⟩ := lengths_decomp s.buffer s.buf_y h2 h3 h4
  have ey : s.buf_y.toNat = A.length := by omega
  have hmem : ∀ l ∈ A ++ line :: B, 0 ≤ l.cap := fun l hl => h2.2 l (by rw [hlo]; exact hl)
  have hline : 0 ≤ line.cap := hmem line (by simp)
  rw [hl, ey, getD_append_length] at hx1
  by_cases hbs : c = 8 ∨ c = 127
  · by_cases hx : s.buf_x = 0
    · by_cases hy0 : s.buf_y = 0
      · rw [state_insert_other_eq io s c (Or.inl ⟨hbs, hx, hy0⟩)]
        refine ⟨⟨h1, h2, h3, h4⟩, ?_⟩
        simp only [col_ok, hl, ey, getD_append_length]
        omega
      · obtain ⟨A', B0, C', prev, hl', hy', hn', hlo'⟩ :=
          lengths_decomp s.buffer (s.buf_y - 1) h2 (by omega) (by omega)
        cases B0 with
        | nil => simp at hn'; omega
        | cons line' B' =>
          simp only [List.length_cons] at hn'
          have hmem' : ∀ l ∈ A' ++ prev :: line' :: B', 0 ≤ l.cap :=
            fun l hl => h2.2 l (by rw [hlo']; exact hl)
          have hp : 0 ≤ prev.cap := hmem' prev (by simp)
          have hl2 : 0 ≤ line'.cap := hmem' line' (by simp)
          have hl'' : s.buffer.lines = A' ++ prev :: line' :: (B' ++ C') := by rw [hl']; simp
          rw [state_insert_merge_eq io s c A' B' C' prev line' hbs hl'' (by omega) hx
            (by omega)]
          have e2 : A' ++ merged prev line' :: (B' ++ (line' :: (B' ++ C')).drop B'.length)
              = (A' ++ merged prev line' :: B') ++ (line' :: (B' ++ C')).drop B'.length := by
            simp
          have hok' : lengths_ok
              { count := s.buffer.count - 1, scroll := s.buffer.scroll,
                lines := A' ++ merged prev line' :: (B' ++ (line' :: (B' ++ C')).drop B'.length) } := by
            rw [e2]
            apply lengths_ok_of
            · simp only [List.length_append, List.length_cons]; omega
            · intro l hl
              simp only [List.mem_append, List.mem_cons] at hl
              rcases hl with hl | hl | hl
              · exact hmem' l (by simp [hl])
              · rw [hl]; simp only [merged]; omega
              · exact hmem' l (by simp [hl])
          refine ⟨⟨by show 1 ≤ s.buffer.count - 1; omega, hok', by show 0 ≤ s.buf_y - 1; omega,
            by show s.buf_y - 1 ≤ s.buffer.count - 1 - 1; omega⟩, ?_⟩
          have e3 : (s.buf_y - 1).toNat = A'.length := by omega
          simp only [col_ok, e3, getD_append_length, merged]
          omega
    · rw [state_insert_delete_eq io s c A (B ++ C) line hbs hl hy hx]
      have e2 : A ++ deleted line s.buf_x :: (B ++ C) = (A ++ deleted line s.buf_x :: B) ++ C := by
        simp
      have hok' : lengths_ok
          { count := s.buffer.count, scroll := s.buffer.scroll,
            lines := A ++ deleted line s.buf_x :: (B ++ C) } := by
        rw [e2]
        apply lengths_ok_of
        · simp only [List.length_append, List.length_cons]; omega
        · intro l hl
          simp only [List.mem_append, List.mem_cons] at hl
          rcases hl with hl | hl | hl
          · exact hmem l (by simp [hl])
          · rw [hl]; simp only [deleted]; omega
          · exact hmem l (by simp [hl])
      refine ⟨⟨h1, hok', h3, h4⟩, ?_⟩
      simp only [col_ok, ey, getD_append_length, deleted]
      omega
  · by_cases hnl : c = 13 ∨ c = 10
    · rw [state_insert_newline_eq io s c A B C line hnl hl hy hn]
      have hok' : lengths_ok
          { count := s.buffer.count + 1, scroll := s.buffer.scroll,
            lines := A ++ split_first line s.buf_x :: split_second line s.buf_x :: B } := by
        have := lengths_ok_of (s.buffer.count + 1) s.buffer.scroll
          (A ++ split_first line s.buf_x :: split_second line s.buf_x :: B) []
          (by simp only [List.length_append, List.length_cons]; omega)
          (by
            intro l hl
            simp only [List.mem_append, List.mem_cons] at hl
            rcases hl with hl | hl | hl | hl
            · exact hmem l (by simp [hl])
            · rw [hl]; simp only [split_first]; omega
            · rw [hl]; simp only [split_second]; omega
            · exact hmem l (by simp [hl]))
        simpa using this
      refine ⟨⟨by show 1 ≤ s.buffer.count + 1; omega, hok', by show 0 ≤ s.buf_y + 1; omega,
        by show s.buf_y + 1 ≤ s.buffer.count + 1 - 1; omega⟩, ?_⟩
      have e3 : (s.buf_y + 1).toNat = (A ++ [split_first line s.buf_x]).length := by
        simp only [List.length_append, List.length_singleton]; omega
      have e4 : A ++ split_first line s.buf_x :: split_second line s.buf_x :: B
          = (A ++ [split_first line s.buf_x]) ++ split_second line s.buf_x :: B := by simp
      have hg : (A ++ split_first line s.buf_x :: split_second line s.buf_x :: B).getD
          (s.buf_y + 1).toNat default = split_second line s.buf_x := by
        rw [e3, e4]; exact getD_append_length _ _ _ _
      simp only [col_ok]
      rw [hg]
      simp only [split_second]
      omega
    · by_cases hesc : c = 27
      · rw [hesc, state_insert_escape_eq]
        refine ⟨⟨h1, h2, h3, h4⟩, ?_⟩
        simp only [col_ok, hl, ey, getD_append_length]
        omega
      · by_cases hpr : isprint c = true ∨ c = 9
        · rw [state_insert_char_eq io s c A (B ++ C) line hpr hl hy]
          have e2 : A ++ inserted line s.buf_x c :: (B ++ C)
              = (A ++ inserted line s.buf_x c :: B) ++ C := by simp
          have hok' : lengths_ok
              { count := s.buffer.count, scroll := s.buffer.scroll,
                lines := A ++ inserted line s.buf_x c :: (B ++ C) } := by
            rw [e2]
            apply lengths_ok_of
            · simp only [List.length_append, List.length_cons]; omega
            · intro l hl
              simp only [List.mem_append, List.mem_cons] at hl
              rcases hl with hl | hl | hl
              · exact hmem l (by simp [hl])
              · rw [hl]; simp only [inserted]; omega
              · exact hmem l (by simp [hl])
          refine ⟨⟨h1, hok', h3, h4⟩, ?_⟩
          simp only [col_ok, ey, getD_append_length, inserted]
          omega
        · have hpr1 : isprint c = false := by
            cases hp : isprint c
            · rfl
            · exact absurd (Or.inl hp) hpr
          rw [state_insert_other_eq io s c
            (Or.inr ⟨by omega, by omega, by omega, by omega, hesc, hpr1, by omega⟩)]
          refine ⟨⟨h1, h2, h3, h4⟩, ?_⟩
          simp only [col_ok, hl, ey, getD_append_length]
          omega

theorem state_write_buffer (io : xc_io) (s : xc_state_t) (filename : List Int) :
    (state_write io s filename).2.1.buffer = s.buffer ∧
      (state_write io s filename).2.1.buf_y = s.buf_y ∧
      (state_write io s filename).2.1.buf_x = s.buf_x ∧
      (state_write io s filename).2.1.running = s.running ∧
      (state_write io s filename).2.1.mode = s.mode ∧
      (state_write io s filename).2.1.scr_h = s.scr_h := by
  rcases state_write_state io s filename with e | e <;> rw [e] <;> simp

theorem state_init_count_ge (raw : List Int) (count : Int) :
    count ≤ state_init_count raw count := by
  induction raw generalizing count with
  | nil => exact le_refl _
  | cons x xs ih =>
    simp only [state_init_count]
    split_ifs
    · have := ih (count + 1); omega
    · exact ih count

theorem state_init_count_pos (state : xc_state_t) (path raw : List Int) (ws_col ws_row : Int) :
    1 ≤ (state_init state path raw ws_col ws_row).buffer.count := by
  have h := state_init_count_ge raw 0
  simp only [state_init]
  split_ifs with h0
  · exact le_refl _
  · show 1 ≤ state_init_count raw 0
    omega

theorem state_insert_count_pos (io : xc_io) (s : xc_state_t) (c : Int)
    (h1 : 1 ≤ s.buffer.count) (hy1 : s.buf_y ≤ s.buffer.count - 1) (hy0 : 0 ≤ s.buf_y) :
    1 ≤ (state_insert io s c).buffer.count := by
  simp only [state_insert]
  split_ifs
  · exact h1
  · show 1 ≤ s.buffer.count - 1
    omega
  · exact h1
  · show 1 ≤ s.buffer.count + 1
    omega
  · have := (state_write_buffer io { s with mode := xc_mode.COMMAND } BACKUP_FILE).1
    show 1 ≤ (state_write io { s with mode := xc_mode.COMMAND } BACKUP_FILE).2.1.buffer.count
    rw [this]
    exact h1
  · exact h1
  · exact h1
  · exact h1

theorem state_command_count (io : xc_io) (s : xc_state_t) (c : Int) :
    (state_command io s c).buffer.count = s.buffer.count ∧
      (state_command io s c).buffer.lines = s.buffer.lines := by
  have hw := (state_write_buffer io s s.filename).1
  simp only [state_command]
  split_ifs
  · exact ⟨rfl, rfl⟩
  · exact ⟨rfl, rfl⟩
  · exact ⟨rfl, rfl⟩
  · rw [hw]; exact ⟨rfl, rfl⟩
  · show (state_write io s s.filename).2.1.buffer.count = _ ∧
      (state_write io s s.filename).2.1.buffer.lines = _
    rw [hw]; exact ⟨rfl, rfl⟩
  · exact ⟨rfl, rfl⟩
  · exact ⟨rfl, rfl⟩
  · exact ⟨rfl, rfl⟩
  · exact ⟨rfl, rfl⟩
  · exact ⟨rfl, rfl⟩

theorem state_step_move_buffer (s : xc_state_t) (c : Int) :
    (state_step_move s c).buffer.count = s.buffer.count ∧
      (state_step_move s c).buffer.lines = s.buffer.lines ∧
      (state_step_move s c).mode = s.mode ∧ (state_step_move s c).scr_h = s.scr_h := by
  simp only [state_step_move]
  split_ifs <;> exact ⟨rfl, rfl, rfl, rfl⟩

theorem state_step_clamp_bounds (s : xc_state_t) (h1 : 1 ≤ s.buffer.count) :
    (state_step_clamp s).buffer.count = s.buffer.count ∧
      (state_step_clamp s).buffer.lines = s.buffer.lines ∧
      (state_step_clamp s).mode = s.mode ∧
      0 ≤ (state_step_clamp s).buf_y ∧ (state_step_clamp s).buf_y ≤ s.buffer.count - 1 ∧
      0 ≤ (state_step_clamp s).buffer.scroll ∧
      (state_step_clamp s).buffer.scroll ≤ s.buffer.count - 1 := by
  simp only [state_step_clamp, clamp_buf_x]
  refine ⟨trivial, trivial, trivial, ?_, ?_, ?_, ?_⟩ <;> split_ifs <;> omega

theorem lengths_ok_congr (b b' : xc_buffer_t) (hc : b'.count = b.count)
    (hl : b'.lines = b.lines) (h : lengths_ok b) : lengths_ok b' := by
  unfold lengths_ok lines_of at *
  rw [hc, hl]
  exact h

theorem state_step_clamp_ok (s : xc_state_t) (c : Int) (h1 : 1 ≤ s.buffer.count)
    (hok : lengths_ok s.buffer) :
    row_ok (state_step_clamp (state_step_move s c)) ∧
      col_ok (state_step_clamp (state_step_move s c)) := by
  obtain ⟨m1, m2, _, _⟩ := state_step_move_buffer s c
  obtain ⟨c1, c2, _, c4, c5, _, _⟩ :=
    state_step_clamp_bounds (state_step_move s c) (by rw [m1]; exact h1)
  have hrow : row_ok (state_step_clamp (state_step_move s c)) := by
    refine ⟨by rw [c1, m1]; exact h1, ?_, c4, by rw [c1]; exact c5⟩
    exact lengths_ok_congr s.buffer _ (by rw [c1, m1]) (by rw [c2, m2]) hok
  exact clamp_buf_x_ok _ hrow

theorem state_step_ok (io : xc_io) (s : xc_state_t) (c : Int) (h1 : 1 ≤ s.buffer.count)
    (hok : lengths_ok s.buffer) : row_ok (state_step io s c) ∧ col_ok (state_step io s c) := by
  obtain ⟨hr, hc⟩ := state_step_clamp_ok s c h1 hok
  have h2 : row_ok (match (state_step_clamp (state_step_move s c)).mode with
      | xc_mode.INSERT => state_insert io (state_step_clamp (state_step_move s c)) c
      | xc_mode.COMMAND => state_command io (state_step_clamp (state_step_move s c)) c) := by
    cases (state_step_clamp (state_step_move s c)).mode
    · exact state_command_row_ok io _ c hr
    · exact (state_insert_ok io _ c hr hc).1
  exact clamp_buf_x_ok _ h2

/-- C9: after `state_step` on any key, in either mode, from a state with `count ≥ 1`
whose buffer has well-formed lengths, the cursor is within its bounds:
`0 ≤ buf_y ≤ count - 1` and `0 ≤ buf_x ≤ cap` of line `buf_y`. -/
theorem cursor_in_bounds_after_step (io : xc_io) (s : xc_state_t) (c : Int)
    (h1 : 1 ≤ s.buffer.count) (hok : lengths_ok s.buffer) :
    0 ≤ (state_step io s c).buf_y ∧
      (state_step io s c).buf_y ≤ (state_step io s c).buffer.count - 1 ∧
      0 ≤ (state_step io s c).buf_x ∧
      (state_step io s c).buf_x
        ≤ ((state_step io s c).buffer.lines.getD (state_step io s c).buf_y.toNat default).cap := by
  obtain ⟨⟨_, _, h3, h4⟩, h5, h6⟩ := state_step_ok io s c h1 hok
  exact ⟨h3, h4, h5, h6⟩

theorem cursor_in_bounds_after_step_witness :
    1 ≤ (three_line_state 1 2).buffer.count ∧ lengths_ok (three_line_state 1 2).buffer ∧
      0 ≤ (state_step io_ok (three_line_state 1 2) 10).buf_y ∧
      (state_step io_ok (three_line_state 1 2) 10).buf_y
        ≤ (state_step io_ok (three_line_state 1 2) 10).buffer.count - 1 ∧
      0 ≤ (state_step io_ok (three_line_state 1 2) 10).buf_x ∧
      (state_step io_ok (three_line_state 1 2) 10).buf_x
        ≤ ((state_step io_ok (three_line_state 1 2) 10).buffer.lines.getD
            (state_step io_ok (three_line_state 1 2) 10).buf_y.toNat default).cap :=
  ⟨by decide, by decide,
    cursor_in_bounds_after_step io_ok (three_line_state 1 2) 10 (by decide) (by decide)⟩

theorem state_step_count_pos (io : xc_io) (s : xc_state_t) (c : Int)
    (h1 : 1 ≤ s.buffer.count) : 1 ≤ (state_step io s c).buffer.count := by
  obtain ⟨m1, _, _, _⟩ := state_step_move_buffer s c
  obtain ⟨c1, _, _, c4, c5, _, _⟩ :=
    state_step_clamp_bounds (state_step_move s c) (by rw [m1]; exact h1)
  have hc : 1 ≤ (state_step_clamp (state_step_move s c)).buffer.count := by
    rw [c1, m1]; exact h1
  show (1 : Int) ≤ (match (state_step_clamp (state_step_move s c)).mode with
      | xc_mode.INSERT => state_insert io (state_step_clamp (state_step_move s c)) c
      | xc_mode.COMMAND => state_command io (state_step_clamp (state_step_move s c)) c).buffer.count
  cases (state_step_clamp (state_step_move s c)).mode
  · show (1 : Int) ≤ (state_command io (state_step_clamp (state_step_move s c)) c).buffer.count
    rw [(state_command_count io _ c).1]
    exact hc
  · exact state_insert_count_pos io _ c hc (by rw [c1]; exact c5) c4

/-- C7: the buffer always has at least one line.  The buffer `state_init` builds from
any byte sequence has `count ≥ 1`, and from every state with `count ≥ 1` and
`0 ≤ buf_y ≤ count - 1` the states after `state_insert`, `state_command` and
`state_step` on any key, in either mode, have `count ≥ 1`. -/
theorem count_at_least_one :
    (∀ (state : xc_state_t) (path raw : List Int) (ws_col ws_row : Int),
        1 ≤ (state_init state path raw ws_col ws_row).buffer.count) ∧
      (∀ (io : xc_io) (s : xc_state_t) (c : Int), 1 ≤ s.buffer.count → 0 ≤ s.buf_y →
        s.buf_y ≤ s.buffer.count - 1 →
        1 ≤ (state_insert io s c).buffer.count ∧ 1 ≤ (state_command io s c).buffer.count ∧
          1 ≤ (state_step io s c).buffer.count) := by
  refine ⟨state_init_count_pos, ?_⟩
  intro io s c h1 hy0 hy1
  refine ⟨state_insert_count_pos io s c h1 hy1 hy0, ?_, state_step_count_pos io s c h1⟩
  rw [(state_command_count io s c).1]
  exact h1

theorem count_at_least_one_witness :
    1 ≤ (state_init zero_state [] [] 80 24).buffer.count ∧
      1 ≤ (state_insert io_ok (two_line_state_at 1 0) 127).buffer.count ∧
      1 ≤ (state_command io_ok (two_line_state_at 1 0) 127).buffer.count ∧
      1 ≤ (state_step io_ok (two_line_state_at 1 0) 127).buffer.count :=
  ⟨count_at_least_one.1 zero_state [] [] 80 24,
    count_at_least_one.2 io_ok (two_line_state_at 1 0) 127 (by decide) (by decide) (by decide)⟩

/-! ## Navigation -/

theorem nav_key_range (c : Int) (h : is_nav_key c) : 0 ≤ c ∧ c ≤ 5 := by
  unfold is_nav_key UP DOWN LEFT RIGHT PGUP PGDN at h
  omega

theorem state_step_nav (io : xc_io) (s : xc_state_t) (c : Int) (h : is_nav_key c) :
    (state_step io s c).buffer = (state_step_clamp (state_step_move s c)).buffer ∧
      (state_step io s c).buf_y = (state_step_clamp (state_step_move s c)).buf_y := by
  obtain ⟨hc0, hc5⟩ := nav_key_range c h
  have hi : state_insert io (state_step_clamp (state_step_move s c)) c
      = { state_step_clamp (state_step_move s c) with dirty := true } := by
    apply state_insert_other_eq
    right
    refine ⟨by omega, by omega, by omega, by omega, by omega, ?_, by omega⟩
    simp only [isprint, decide_eq_false_iff_not]
    omega
  have hcmd : state_command io (state_step_clamp (state_step_move s c)) c
      = state_step_clamp (state_step_move s c) := by
    have g1 : c ≠ 105 := by omega
    have g2 : c ≠ 113 := by omega
    have g3 : c ≠ 119 := by omega
    have g4 : c ≠ 115 := by omega
    have g5 : c ≠ 46 := by omega
    have g6 : c ≠ 44 := by omega
    have g7 : c ≠ 59 := by omega
    have g8 : c ≠ 39 := by omega
    simp only [state_command, g1, g2, g3, g4, g5, g6, g7, g8, if_false]
  constructor
  · show (match (state_step_clamp (state_step_move s c)).mode with
      | xc_mode.INSERT => state_insert io (state_step_clamp (state_step_move s c)) c
      | xc_mode.COMMAND => state_command io (state_step_clamp (state_step_move s c)) c).buffer = _
    cases (state_step_clamp (state_step_move s c)).mode
    · show (state_command io _ c).buffer = _
      rw [hcmd]
    · show (state_insert io _ c).buffer = _
      rw [hi]
  · show (match (state_step_clamp (state_step_move s c)).mode with
      | xc_mode.INSERT => state_insert io (state_step_clamp (state_step_move s c)) c
      | xc_mode.COMMAND => state_command io (state_step_clamp (state_step_move s c)) c).buf_y = _
    cases (state_step_clamp (state_step_move s c)).mode
    · show (state_command io _ c).buf_y = _
      rw [hcmd]
    · show (state_insert io _ c).buf_y = _
      rw [hi]

theorem nav_step_in_bounds (io : xc_io) (s : xc_state_t) (c : Int) (h : is_nav_key c)
    (h1 : 1 ≤ s.buffer.count) (hok : lengths_ok s.buffer) :
    in_bounds (state_step io s c) ∧ 1 ≤ (state_step io s c).buffer.count ∧
      lengths_ok (state_step io s c).buffer := by
  obtain ⟨hb, _⟩ := state_step_nav io s c h
  obtain ⟨m1, _, _, _⟩ := state_step_move_buffer s c
  obtain ⟨c1, _, _, _, _, c6, c7⟩ :=
    state_step_clamp_bounds (state_step_move s c) (by rw [m1]; exact h1)
  obtain ⟨⟨r1, r2, r3, r4⟩, r5, r6⟩ := state_step_ok io s c h1 hok
  refine ⟨⟨?_, ?_, r3, r4, r5, r6⟩, r1, r2⟩
  · rw [hb]; exact c6
  · rw [hb, c1]; exact c7

theorem run_keys_in_bounds (io : xc_io) (keys : List Int) :
    ∀ s : xc_state_t, keys ≠ [] → (∀ c ∈ keys, is_nav_key c) → 1 ≤ s.buffer.count →
      lengths_ok s.buffer → in_bounds (run_keys io s keys) := by
  induction keys with
  | nil => intro s h; exact absurd rfl h
  | cons c cs ih =>
    intro s _ hk h1 hok
    obtain ⟨hb, hc1, hok1⟩ := nav_step_in_bounds io s c (hk c (by simp)) h1 hok
    by_cases hcs : cs = []
    · subst hcs
      exact hb
    · exact ih (state_step io s c) hcs (fun k hm => hk k (by simp [hm])) hc1 hok1

/-- C10: from a state with `count ≥ 1`, well-formed lengths, `scroll = 0` and cursor
`(0, 0)`, after every step of any finite sequence of navigation keys (Up, Down, Left,
Right, PageUp, PageDown) fed to `state_step`, `0 ≤ scroll ≤ count - 1`,
`0 ≤ buf_y ≤ count - 1` and `0 ≤ buf_x ≤ cap` of line `buf_y`.  In particular Up at the
buffer top leaves `scroll = 0` and `buf_y = 0`, and PageDown from any state with
`count ≥ 1` leaves `scroll` and `buf_y` at most `count - 1`. -/
theorem navigation_stays_in_bounds (io : xc_io) (s : xc_state_t) (keys : List Int)
    (h1 : 1 ≤ s.buffer.count) (hok : lengths_ok s.buffer) (hs : s.buffer.scroll = 0)
    (hy : s.buf_y = 0) (_hx : s.buf_x = 0) (hk : ∀ c ∈ keys, is_nav_key c) :
    (∀ n : Nat, 1 ≤ n → n ≤ keys.length → in_bounds (run_keys io s (keys.take n))) ∧
      ((state_step io s UP).buffer.scroll = 0 ∧ (state_step io s UP).buf_y = 0) ∧
      (∀ t : xc_state_t, 1 ≤ t.buffer.count →
        (state_step io t PGDN).buffer.scroll ≤ (state_step io t PGDN).buffer.count - 1 ∧
          (state_step io t PGDN).buf_y ≤ (state_step io t PGDN).buffer.count - 1) := by
  refine ⟨?_, ?_, ?_⟩
  · intro n hn1 hn2
    apply run_keys_in_bounds io _ s _ (fun c hc => hk c (List.mem_of_mem_take hc)) h1 hok
    intro e
    have := congrArg List.length e
    rw [List.length_take, List.length_nil] at this
    omega
  · obtain ⟨hb, hby⟩ := state_step_nav io s UP (Or.inl rfl)
    rw [hb, hby]
    simp only [state_step_clamp, state_step_move, clamp_buf_x, UP, hs, hy, if_true]
    constructor <;> split_ifs <;> omega
  · intro t ht
    obtain ⟨hb, hby⟩ := state_step_nav io t PGDN (by simp [is_nav_key])
    obtain ⟨m1, _, _, _⟩ := state_step_move_buffer t PGDN
    obtain ⟨c1, _, _, _, c5, _, c7⟩ :=
      state_step_clamp_bounds (state_step_move t PGDN) (by rw [m1]; exact ht)
    rw [hb, hby, c1]
    exact ⟨c7, c5⟩

theorem navigation_stays_in_bounds_witness :
    1 ≤ (three_line_state 0 0).buffer.count ∧ lengths_ok (three_line_state 0 0).buffer ∧
      (∀ c ∈ [DOWN, PGDN, RIGHT, UP, PGUP, LEFT], is_nav_key c) ∧
      in_bounds (run_keys io_ok (three_line_state 0 0)
        ([DOWN, PGDN, RIGHT, UP, PGUP, LEFT].take 2)) ∧
      ((state_step io_ok (three_line_state 0 0) UP).buffer.scroll = 0 ∧
        (state_step io_ok (three_line_state 0 0) UP).buf_y = 0) ∧
      (state_step io_ok (three_line_state 2 0) PGDN).buffer.scroll
        ≤ (state_step io_ok (three_line_state 2 0) PGDN).buffer.count - 1 :=
  have h := navigation_stays_in_bounds io_ok (three_line_state 0 0)
    [DOWN, PGDN, RIGHT, UP, PGUP, LEFT] (by decide) (by decide) rfl rfl rfl (by decide)
  ⟨by decide, by decide, by decide, h.1 2 (by decide) (by decide), h.2.1,
    (h.2.2 (three_line_state 2 0) (by decide)).1⟩

/-! ## Where the code departs from the specification -/

/-- C3: on the two-line buffer with unsaved changes in COMMAND mode, the key `s` (115)
with a failing save (the file cannot be opened, or a line is written short) leaves
`dirty` set but clears `running`: the session is quit although nothing was saved.  The
key `w` (119) with the same failures leaves the state unchanged. -/
theorem save_and_quit_ignores_failure :
    dirty_state.mode = xc_mode.COMMAND ∧ dirty_state.running = true ∧
      (state_write io_open_fails dirty_state dirty_state.filename).1 = false ∧
      (state_command io_open_fails dirty_state 115).running = false ∧
      (state_command io_open_fails dirty_state 115).dirty = true ∧
      (state_write io_short_write dirty_state dirty_state.filename).1 = false ∧
      (state_command io_short_write dirty_state 115).running = false ∧
      (state_command io_short_write dirty_state 115).dirty = true ∧
      state_command io_open_fails dirty_state 119 = dirty_state ∧
      state_command io_short_write dirty_state 119 = dirty_state := by
  decide

/-- C4: load the file of an empty line and a line of 32 bytes, enter INSERT mode, move
down and type backspace at column 0.  Before the backspace every line has
`size ≥ cap + 1` and the cursor is in bounds; after it the merged line has `cap = 32`
and `size = 32`, because the merge grows the block without updating `size`. -/
theorem merge_leaves_size_stale :
    sizes_ok (run_keys io_ok (state_init zero_state [] long_second_line_file 80 24) [105, DOWN]).buffer ∧
      in_bounds (run_keys io_ok (state_init zero_state [] long_second_line_file 80 24) [105, DOWN]) ∧
      (run_keys io_ok (state_init zero_state [] long_second_line_file 80 24) [105, DOWN]).buf_y = 1 ∧
      (run_keys io_ok (state_init zero_state [] long_second_line_file 80 24) [105, DOWN]).buf_x = 0 ∧
      (lines_of (state_insert io_ok
        (run_keys io_ok (state_init zero_state [] long_second_line_file 80 24) [105, DOWN])
        127).buffer).map (fun l => (l.cap, l.size)) = [(32, 32)] ∧
      ¬ sizes_ok (state_insert io_ok
        (run_keys io_ok (state_init zero_state [] long_second_line_file 80 24) [105, DOWN])
        127).buffer := by
  decide

/-- C8: `state_step` does not clamp `scroll` after the mode handler.  On the one-line
buffer loaded from `abc` with a 24-row screen the COMMAND key `.` (46) leaves
`scroll = -22`; on the two-line buffer with `scroll = 1` and the cursor at the start of
line 1 the INSERT key backspace (127) leaves `scroll = 1` with `count = 1`. -/
theorem scroll_out_of_bounds_after_step :
    in_bounds (state_init zero_state [] [97, 98, 99, 10] 80 24) ∧
      (state_init zero_state [] [97, 98, 99, 10] 80 24).buffer.count = 1 ∧
      (state_init zero_state [] [97, 98, 99, 10] 80 24).scr_h = 24 ∧
      (state_step io_ok (state_init zero_state [] [97, 98, 99, 10] 80 24) 46).buffer.scroll
        = -22 ∧
      in_bounds
        (run_keys io_ok (state_init zero_state [] [97, 98, 99, 10, 100, 101, 102, 10] 80 24)
          [105, PGDN]) ∧
      (run_keys io_ok (state_init zero_state [] [97, 98, 99, 10, 100, 101, 102, 10] 80 24)
          [105, PGDN]).buffer.count = 2 ∧
      (run_keys io_ok (state_init zero_state [] [97, 98, 99, 10, 100, 101, 102, 10] 80 24)
          [105, PGDN]).scr_h = 24 ∧
      (run_keys io_ok (state_init zero_state [] [97, 98, 99, 10, 100, 101, 102, 10] 80 24)
          [105, PGDN]).buf_x = 0 ∧
      (state_step io_ok
        (run_keys io_ok (state_init zero_state [] [97, 98, 99, 10, 100, 101, 102, 10] 80 24)
          [105, PGDN]) 127).buffer.scroll = 1 ∧
      (state_step io_ok
        (run_keys io_ok (state_init zero_state [] [97, 98, 99, 10, 100, 101, 102, 10] 80 24)
          [105, PGDN]) 127).buffer.count = 1 := by
  decide

/-! ## Viewport after an edit, and rendering order -/

set_option maxRecDepth 100000 in
/-- C11: `state_insert` moves `buf_y` without adjusting `scroll`.  On an empty file
with a 24-row screen, after `i` and 22 newlines the cursor is in bounds on the last
content row (row 22); one more newline leaves `cur_y = 23`, below the content rows. On
the two-line buffer scrolled to its last line, backspace at column 0 leaves
`cur_y = -1`. -/
theorem cursor_leaves_visible_rows :
    in_bounds (run_keys io_ok (state_init zero_state [] [] 80 24)
        (105 :: List.replicate 22 10)) ∧
      row_visible (run_keys io_ok (state_init zero_state [] [] 80 24)
        (105 :: List.replicate 22 10)) ∧
      (run_keys io_ok (state_init zero_state [] [] 80 24) (105 :: List.replicate 22 10)).scr_h
        = 24 ∧
      (state_step io_ok
        (run_keys io_ok (state_init zero_state [] [] 80 24) (105 :: List.replicate 22 10))
        10).cur_y = 23 ∧
      in_bounds
        (run_keys io_ok (state_init zero_state [] [97, 98, 99, 10, 100, 101, 102, 10] 80 24)
          [105, PGDN]) ∧
      row_visible
        (run_keys io_ok (state_init zero_state [] [97, 98, 99, 10, 100, 101, 102, 10] 80 24)
          [105, PGDN]) ∧
      (run_keys io_ok (state_init zero_state [] [97, 98, 99, 10, 100, 101, 102, 10] 80 24)
          [105, PGDN]).scr_h = 24 ∧
      (state_step io_ok
        (run_keys io_ok (state_init zero_state [] [97, 98, 99, 10, 100, 101, 102, 10] 80 24)
          [105, PGDN]) 127).cur_y = -1 := by
  decide

/-- C12: `draw_line` prints a tab, a `//` or a `#` at once but keeps the token before
it in the buffer until the next flush.  With the style sequences removed, the line
`a<TAB>b` is printed as four spaces followed by `ab`, `ab//c` as `//cab` and `ab#c` as
`#cab`, where the bytes in order would be `a`, four spaces, `b`, then `ab//c` and
`ab#c`. -/
theorem draw_line_reorders_pending_token :
    strip_styles false (draw_line (state_of_line (bytes "a\tb")) 0).out = bytes "    ab\n" ∧
      expand_tabs (bytes "a\tb") ++ [10] = bytes "a    b\n" ∧
      strip_styles false (draw_line (state_of_line (bytes "ab//c")) 0).out = bytes "//cab\n" ∧
      expand_tabs (bytes "ab//c") ++ [10] = bytes "ab//c\n" ∧
      strip_styles false (draw_line (state_of_line (bytes "ab#c")) 0).out = bytes "#cab\n" ∧
      expand_tabs (bytes "ab#c") ++ [10] = bytes "ab#c\n" := by
  decide

/-! ## Keyboard -/

/-- The sequences `get_key` decodes when every byte it reads has arrived (with `select`
not failing).  A first byte other than ESC is returned as it is; ESC `[`
`A`/`B`/`C`/`D` gives Up/Down/Right/Left; ESC `[` `5` `~` gives PageUp and ESC `[` `6`
`~` PageDown; ESC alone gives the bare Escape key (27), and so does ESC followed by two
bytes whose first is not `[`, by `[` and a byte other than `A B C D 5 6`, or by `[`, `5`
or `6`, and a byte other than `~`. -/
theorem get_key_decodes :
    (∀ (c : Int) (rest : List Int) (esc2 : Int), c ≠ 27 →
        (get_key (c :: rest) false esc2).1 = c) ∧
      (∀ (rest : List Int) (esc2 : Int),
        (get_key (27 :: 91 :: 65 :: rest) false esc2).1 = UP ∧
        (get_key (27 :: 91 :: 66 :: rest) false esc2).1 = DOWN ∧
        (get_key (27 :: 91 :: 67 :: rest) false esc2).1 = RIGHT ∧
        (get_key (27 :: 91 :: 68 :: rest) false esc2).1 = LEFT ∧
        (get_key (27 :: 91 :: 53 :: 126 :: rest) false esc2).1 = PGUP ∧
        (get_key (27 :: 91 :: 54 :: 126 :: rest) false esc2).1 = PGDN) ∧
      (∀ esc2 : Int, (get_key [27] false esc2).1 = 27) ∧
      (∀ (a b : Int) (rest : List Int) (esc2 : Int), a ≠ 91 →
        (get_key (27 :: a :: b :: rest) false esc2).1 = 27) ∧
      (∀ (b : Int) (rest : List Int) (esc2 : Int),
        b ≠ 65 → b ≠ 66 → b ≠ 67 → b ≠ 68 → b ≠ 53 → b ≠ 54 →
        (get_key (27 :: 91 :: b :: rest) false esc2).1 = 27) ∧
      (∀ (b d : Int) (rest : List Int) (esc2 : Int), b = 53 ∨ b = 54 → d ≠ 126 →
        (get_key (27 :: 91 :: b :: d :: rest) false esc2).1 = 27) := by
  refine ⟨?_, ?_, ?_, ?_, ?_, ?_⟩
  · intro c rest esc2 hc
    simp [get_key, hc]
  · intro rest esc2
    simp [get_key, UP, DOWN, RIGHT, LEFT, PGUP, PGDN]
  · intro esc2
    simp [get_key]
  · intro a b rest esc2 ha
    simp [get_key, ha]
  · intro b rest esc2 h1 h2 h3 h4 h5 h6
    simp [get_key, h1, h2, h3, h4, h5, h6]
  · intro b d rest esc2 hb hd
    rcases hb with hb | hb <;> simp [get_key, hb, hd]

theorem get_key_decodes_witness :
    (get_key [120, 121] false 0).1 = 120 ∧
      (get_key [27, 91, 65] false 0).1 = UP ∧
      (get_key [27, 91, 54, 126] false 0).1 = PGDN ∧
      (get_key [27] false 0).1 = 27 ∧
      (get_key [27, 79, 80] false 0).1 = 27 ∧
      (get_key [27, 91, 70] false 0).1 = 27 ∧
      (get_key [27, 91, 53, 65] false 0).1 = 27 :=
  ⟨get_key_decodes.1 120 [121] 0 (by decide),
    (get_key_decodes.2.1 [] 0).1,
    (get_key_decodes.2.1 [] 0).2.2.2.2.2,
    get_key_decodes.2.2.1 0,
    get_key_decodes.2.2.2.1 79 80 [] 0 (by decide),
    get_key_decodes.2.2.2.2.1 70 [] 0 (by decide) (by decide) (by decide) (by decide)
      (by decide) (by decide),
    get_key_decodes.2.2.2.2.2 53 65 [] 0 (Or.inl rfl) (by decide)⟩

/-- C19: `get_key` does not check the `read` of the byte after ESC `[` `5` or `6`, as it
does for the two bytes before.  When no byte follows, it tests what `esc[2]` happens to
hold: with a `~` left there, ESC `[` `5` alone is decoded as PageUp and ESC `[` `6` alone
as PageDown instead of the bare Escape key (27); with another content they give Escape,
and ESC `[` alone, whose `read` is checked, gives Escape. -/
theorem get_key_tests_unread_byte :
    (get_key [27, 91, 53] false 126).1 = PGUP ∧ (get_key [27, 91, 54] false 126).1 = PGDN ∧
      (get_key [27, 91, 53] false 0).1 = 27 ∧ (get_key [27, 91, 54] false 0).1 = 27 ∧
      (get_key [27, 91] false 126).1 = 27 := by
  decide

/-! ## Visual column -/

theorem set_cur_x_loop_sum (line : List Int) (buf_x len : Int) (hxl : 0 < buf_x → buf_x ≤ len)
    (hlen : buf_x ≤ line.length) :
    ∀ (k i : Nat) (cur_x : Int), (i : Int) ≤ buf_x → buf_x ≤ (i : Int) + k →
      set_cur_x_loop line buf_x len k i cur_x
        = cur_x + (((line.drop i).take (buf_x.toNat - i)).map byte_width).sum := by
  intro k
  induction k with
  | zero =>
    intro i cur_x h1 h2
    have e : buf_x.toNat - i = 0 := by omega
    simp [set_cur_x_loop, e]
  | succ k ih =>
    intro i cur_x h1 h2
    by_cases hi : (i : Int) < buf_x
    · have hc : (i : Int) < buf_x ∧ (i : Int) < len := ⟨hi, by have := hxl (by omega); omega⟩
      have hil : i < line.length := by omega
      have e1 : ((i : Int)).toNat = i := by omega
      have e2 : ((i : Int) + 1) = ((i + 1 : Nat) : Int) := by push_cast; rfl
      have e3 : buf_x.toNat - i = (buf_x.toNat - (i + 1)) + 1 := by omega
      simp only [set_cur_x_loop, hc, and_self, if_true, e1]
      rw [e2, ih (i + 1) _ (by push_cast; omega) (by push_cast; omega),
        List.getD_eq_getElem _ _ hil, List.drop_eq_getElem_cons hil, e3, List.take_succ_cons,
        List.map_cons, List.sum_cons]
      simp only [byte_width]
      split_ifs <;> omega
    · have hc : ¬ ((i : Int) < buf_x ∧ (i : Int) < len) := fun h => hi h.1
      have e : buf_x.toNat - i = 0 := by omega
      simp [set_cur_x_loop, hc, e]

theorem sum_byte_width (l : List Int) :
    (l.map byte_width).sum = (l.length : Int) + 3 * (l.count 9 : Int) := by
  induction l with
  | nil => simp
  | cons b bs ih =>
    simp only [List.map_cons, List.sum_cons, ih, List.length_cons, List.count_cons, byte_width,
      TAB_WIDTH]
    by_cases hb : b = 9
    · simp [hb]; omega
    · have : ¬ (b == 9) = true := by simpa using hb
      simp [hb]; omega

/-- C18: for `0 ≤ buf_x ≤ length of the current line`, `set_cur_x` sets `cur_x` to the
sum, over the first `buf_x` bytes of the line, of `TAB_WIDTH` (4) for a tab and 1 for any
other byte, that is `buf_x + 3 * (number of tabs among those bytes)`: a flat width per
tab, not an alignment to the next multiple of the tab width. -/
theorem set_cur_x_flat_tab_width (state : xc_state_t) (hx0 : 0 ≤ state.buf_x)
    (hx1 : state.buf_x
      ≤ ((state.buffer.lines.getD state.buf_y.toNat default).content.length : Int)) :
    (set_cur_x state).cur_x
        = ((((state.buffer.lines.getD state.buf_y.toNat default).content).take
            state.buf_x.toNat).map byte_width).sum ∧
      (set_cur_x state).cur_x
        = state.buf_x + 3 * ((((state.buffer.lines.getD state.buf_y.toNat default).content).take
            state.buf_x.toNat).count 9 : Int) := by
  generalize hline : state.buffer.lines.getD state.buf_y.toNat default = line at hx1 ⊢
  simp only [xc_line_t.content, List.length_take] at hx1
  have hcap : 0 < state.buf_x → state.buf_x ≤ line.cap := by omega
  have hlen : state.buf_x ≤ (line.text.length : Int) := by omega
  have hloop := set_cur_x_loop_sum line.text state.buf_x line.cap hcap hlen line.cap.toNat 0 0
    (by simpa using hx0) (by omega)
  have htake : line.content.take state.buf_x.toNat = line.text.take state.buf_x.toNat := by
    simp only [xc_line_t.content, List.take_take]
    congr 1
    omega
  have hcur : (set_cur_x state).cur_x
      = ((line.text.take state.buf_x.toNat).map byte_width).sum := by
    simp only [set_cur_x, hline]
    simpa using hloop
  rw [htake, hcur]
  refine ⟨rfl, ?_⟩
  rw [sum_byte_width]
  have : ((line.text.take state.buf_x.toNat).length : Int) = state.buf_x := by
    simp only [List.length_take]
    omega
  rw [this]

theorem set_cur_x_flat_tab_width_witness :
    (0 : Int) ≤ tab_line_state.buf_x ∧ (set_cur_x tab_line_state).cur_x = 5 :=
  have h := set_cur_x_flat_tab_width tab_line_state (by decide) (by decide)
  ⟨by decide, h.2.trans (by decide)⟩

/-! ## Round trips of `state_insert` -/

theorem buffer_lines_eq_of_lines_of (b : xc_buffer_t) :
    buffer_lines b = (lines_of b).map xc_line_t.content := rfl

theorem lines_of_append (count scroll : Int) (L J : List xc_line_t) (hn : count = L.length) :
    lines_of { count := count, scroll := scroll, lines := L ++ J } = L := by
  have e : count.toNat = L.length := by omega
  simp only [lines_of, e, List.take_left]

set_option maxRecDepth 1000000 in
/-- Without `alloc_ok` the insert branch can leave the block.  In `stale_size_state` the
buffer is well formed, every line has `size ≥ cap + 1` and the cursor is in bounds, but
the one line has `cap = 35`, `size = 68` and a block of 36 cells: the insert skips the
`realloc` (`cap + 2 < size`) and its `memmove` ends at cell 37. -/
theorem stale_size_insert_leaves_block :
    buffer_ok stale_size_state.buffer ∧ sizes_ok stale_size_state.buffer ∧
      in_bounds stale_size_state ∧ ¬ alloc_ok stale_size_state.buffer ∧
      (lines_of stale_size_state.buffer).map (fun l => (l.cap, l.size, l.text.length))
        = [(35, 68, 36)] ∧
      (grown_block (stale_size_state.buffer.lines.getD 0 default)).length = 36 ∧
      stale_size_state.buf_x + 1
        + ((stale_size_state.buffer.lines.getD 0 default).cap - stale_size_state.buf_x + 1)
        = 37 := by
  decide

theorem split_second_text_length (line : xc_line_t) (x : Int) (hx0 : 0 ≤ x) (hx : x ≤ line.cap)
    (hl : line.cap ≤ line.text.length) :
    (split_second line x).cap ≤ ((split_second line x).text.length : Int) := by
  have e1 : (line.cap - x + 32).toNat = (line.cap - x).toNat + 32 := by omega
  simp only [split_second, memcpy, malloc, e1, List.length_set, List.length_append,
    List.length_take, List.length_drop, List.length_replicate, Int.toNat_zero]
  omega

/-- C17: in a well-formed buffer, with `0 ≤ y ≤ count - 1` and
`0 ≤ x ≤ length of line y`, typing a newline (or carriage return) at cursor `(y, x)` and
then backspace (0x7F or 0x08) gives back the original line count, the original content
of every line, and the cursor `(buf_y = y, buf_x = x)`. -/
theorem newline_then_backspace_roundtrip (io : xc_io) (state : xc_state_t) (c d : Int)
    (hc : c = 10 ∨ c = 13) (hd : d = 127 ∨ d = 8) (hok : buffer_ok state.buffer)
    (hy0 : 0 ≤ state.buf_y) (hy1 : state.buf_y ≤ state.buffer.count - 1)
    (hx0 : 0 ≤ state.buf_x)
    (hx1 : state.buf_x ≤ ((buffer_lines state.buffer).getD state.buf_y.toNat []).length) :
    buffer_lines (state_insert io (state_insert io state c) d).buffer
        = buffer_lines state.buffer ∧
      (state_insert io (state_insert io state c) d).buffer.count = state.buffer.count ∧
      (state_insert io (state_insert io state c) d).buf_x = state.buf_x ∧
      (state_insert io (state_insert io state c) d).buf_y = state.buf_y := by
  obtain ⟨A, B, C, line, hl, hy, hn, hlo⟩ := buffer_decomp state.buffer state.buf_y hok hy0 hy1
  have hbl : buffer_lines state.buffer
      = A.map xc_line_t.content ++ line.content :: B.map xc_line_t.content := by
    rw [buffer_lines_eq_of_lines_of, hlo]; simp
  have hlen : (A.map xc_line_t.content).length = state.buf_y.toNat := by simp; omega
  have hget : (buffer_lines state.buffer).getD state.buf_y.toNat [] = line.content := by
    rw [hbl, ← hlen]; exact getD_append_length _ _ _ _
  have hlok : line_ok line := hok.2 line (by rw [hlo]; simp)
  have hcl := content_length line hlok
  have hlt := hlok.2
  rw [hget] at hx1
  have hxc : state.buf_x ≤ line.cap := by omega
  have hc' : c = 13 ∨ c = 10 := by omega
  have hd' : d = 8 ∨ d = 127 := by omega
  have e1 := state_insert_newline_eq io state c A B C line hc' hl hy hn
  have h2 := state_insert_merge_eq io (state_insert io state c) d A B []
    (split_first line state.buf_x) (split_second line state.buf_x) hd'
    (by rw [e1]; simp) (by rw [e1]; show state.buf_y + 1 = (A.length : Int) + 1; omega)
    (by rw [e1]) (by rw [e1]; show state.buffer.count + 1 = (A.length : Int) + 2 + B.length; omega)
  rw [h2, e1]
  refine ⟨?_, by show state.buffer.count + 1 - 1 = state.buffer.count; omega, rfl,
    by show state.buf_y + 1 - 1 = state.buf_y; omega⟩
  have e2 : A ++ merged (split_first line state.buf_x) (split_second line state.buf_x) ::
        (B ++ (split_second line state.buf_x :: (B ++ [])).drop B.length)
      = (A ++ merged (split_first line state.buf_x) (split_second line state.buf_x) :: B)
        ++ (split_second line state.buf_x :: (B ++ [])).drop B.length := by simp
  show buffer_lines (xc_buffer_t.mk (state.buffer.count + 1 - 1) state.buffer.scroll
    (A ++ merged (split_first line state.buf_x) (split_second line state.buf_x) ::
      (B ++ (split_second line state.buf_x :: (B ++ [])).drop B.length))) = _
  rw [buffer_lines_eq_of_lines_of, e2,
    lines_of_append _ _ _ _ (by simp only [List.length_append, List.length_cons]; omega),
    hbl, List.map_append, List.map_cons,
    content_merged _ _ hx0 (by simp only [split_first, List.length_set]; omega)
      (by simp only [split_second]; omega)
      (split_second_text_length line state.buf_x hx0 hxc (by omega)),
    content_split_first line state.buf_x hxc,
    content_split_second line state.buf_x hx0 hxc (by omega), List.take_append_drop]

theorem newline_then_backspace_roundtrip_witness :
    buffer_ok (three_line_state 1 2).buffer ∧
      buffer_lines (state_insert io_ok (state_insert io_ok (three_line_state 1 2) 10) 127).buffer
        = [[97, 98, 99], [100, 101, 102], [103, 104, 105]] ∧
      (state_insert io_ok (state_insert io_ok (three_line_state 1 2) 10) 127).buffer.count = 3 ∧
      (state_insert io_ok (state_insert io_ok (three_line_state 1 2) 10) 127).buf_x = 2 ∧
      (state_insert io_ok (state_insert io_ok (three_line_state 1 2) 10) 127).buf_y = 1 :=
  have h := newline_then_backspace_roundtrip io_ok (three_line_state 1 2) 10 127 (by decide)
    (by decide) (by decide) (by decide) (by decide) (by decide) (by decide)
  ⟨by decide, h.1, h.2.1, h.2.2.1, h.2.2.2⟩

/-! ## Highlighter -/

theorem step_eq_prepend (o : List Int) (hl : xc_hl_state_t) (fl : List (List Int))
    (t : draw_trace) : draw_trace.step o hl fl t = draw_trace.prepend o [hl] fl t := rfl

theorem prepend_prepend (o1 o2 : List Int) (h1 h2 : List xc_hl_state_t)
    (f1 f2 : List (List Int)) (t : draw_trace) :
    draw_trace.prepend o1 h1 f1 (draw_trace.prepend o2 h2 f2 t)
      = draw_trace.prepend (o1 ++ o2) (h1 ++ h2) (f1 ++ f2) t := by
  simp [draw_trace.prepend]

theorem flush_token_nil : flush_token [] = [] := by decide

theorem c_string_ne_zero (text : List Int) : ∀ b ∈ c_string text, b ≠ 0 := by
  intro b hb
  have := List.mem_takeWhile_imp hb
  simpa using this

theorem draw_line_eq (state : xc_state_t) (line_num : Int) (line : List Int)
    (hnum : line_num ≤ state.buffer.count)
    (hline : c_string (state.buffer.lines.getD line_num.toNat default).text = line) :
    draw_line state line_num = draw_loop 0 line xc_hl_state_t.DEFAULT [] := by
  have h : ¬ line_num > state.buffer.count := by omega
  simp only [draw_line, h, if_false, hline]

theorem draw_loop_default (p c : Int) (rest token : List Int) :
    draw_loop p (c :: rest) xc_hl_state_t.DEFAULT token =
      if c = 9 then
        draw_trace.step (List.replicate TAB_WIDTH.toNat 32) xc_hl_state_t.DEFAULT []
          (draw_loop c rest xc_hl_state_t.DEFAULT token)
      else if c = 34 ∧ p ≠ 92 ∧ p ≠ 39 then
        draw_trace.step (flush_token token ++ (STRING_PREFIX ++ [c])) xc_hl_state_t.STRING
          [token] (draw_loop c rest xc_hl_state_t.STRING [])
      else if c = 35 ∧ rest.headD 0 ≠ 39 then
        draw_trace.step (PREPROCESSOR_PREFIX ++ [c]) xc_hl_state_t.PREPROCESSOR []
          (draw_loop c rest xc_hl_state_t.PREPROCESSOR token)
      else if c = 47 ∧ rest.headD 0 = 47 then
        draw_trace.step (COMMENT_PREFIX ++ [c, rest.headD 0]) xc_hl_state_t.COMMENT []
          (draw_loop (rest.headD 0) rest.tail xc_hl_state_t.COMMENT token)
      else if is_delim c = true ∨ rest.headD 0 = 0 then
        draw_trace.step (flush_token token ++ [c]) xc_hl_state_t.DEFAULT [token]
          (draw_loop c rest xc_hl_state_t.DEFAULT [])
      else
        draw_trace.step [] xc_hl_state_t.DEFAULT []
          (draw_loop c rest xc_hl_state_t.DEFAULT (token ++ [c])) := by
  cases rest with
  | nil => rw [draw_loop.eq_2]; rfl
  | cons n rest2 => rw [draw_loop.eq_3]; rfl

theorem draw_loop_preprocessor (cs : List Int) :
    ∀ (p : Int) (token : List Int), (∀ b ∈ cs, b ≠ 9) →
      draw_loop p cs xc_hl_state_t.PREPROCESSOR token
        = draw_trace.prepend (cs.flatMap (fun b => PREPROCESSOR_PREFIX ++ [b]))
            (List.replicate cs.length xc_hl_state_t.PREPROCESSOR) []
            { out := flush_token token ++ [10], states := [], flushed := [token] } := by
  induction cs with
  | nil => intro p token _; simp [draw_loop, draw_trace.prepend]
  | cons c cs ih =>
    intro p token h
    have hc : c ≠ 9 := h c (by simp)
    have := ih c token (fun b hb => h b (by simp [hb]))
    simp only [draw_loop, hc, if_false, this, step_eq_prepend, prepend_prepend]
    simp [List.replicate_succ]

theorem draw_loop_comment (cs : List Int) :
    ∀ (p : Int) (token : List Int), (∀ b ∈ cs, b ≠ 9) →
      draw_loop p cs xc_hl_state_t.COMMENT token
        = draw_trace.prepend (cs.flatMap (fun b => COMMENT_PREFIX ++ [b]))
            (List.replicate cs.length xc_hl_state_t.COMMENT) []
            { out := flush_token token ++ [10], states := [], flushed := [token] } := by
  induction cs with
  | nil => intro p token _; simp [draw_loop, draw_trace.prepend]
  | cons c cs ih =>
    intro p token h
    have hc : c ≠ 9 := h c (by simp)
    have := ih c token (fun b hb => h b (by simp [hb]))
    simp only [draw_loop, hc, if_false, this, step_eq_prepend, prepend_prepend]
    simp [List.replicate_succ]

/-- C13: for a line whose first byte is `#`, whose second byte (if any) is not a single
quote and whose other bytes hold no tab, `draw_line` enters PREPROCESSOR at the first
byte, the highlight state is PREPROCESSOR after every byte, and every byte of the line is
printed with the preprocessor style prefix, followed by the newline. -/
theorem preprocessor_line_has_no_exit (state : xc_state_t) (line_num : Int)
    (tail : List Int) (hnum : line_num ≤ state.buffer.count)
    (hline : c_string (state.buffer.lines.getD line_num.toNat default).text = 35 :: tail)
    (hquote : tail.head? ≠ some 39) (htab : ∀ b ∈ tail, b ≠ 9) :
    (draw_line state line_num).out
        = (35 :: tail).flatMap (fun b => PREPROCESSOR_PREFIX ++ [b]) ++ [10] ∧
      (draw_line state line_num).states
        = List.replicate (tail.length + 1) xc_hl_state_t.PREPROCESSOR := by
  have hn : tail.headD 0 ≠ 39 := by
    cases tail with
    | nil => decide
    | cons b bs => simpa using hquote
  rw [draw_line_eq state line_num _ hnum hline]
  have h1 : draw_loop 0 (35 :: tail) xc_hl_state_t.DEFAULT []
      = draw_trace.step (PREPROCESSOR_PREFIX ++ [35]) xc_hl_state_t.PREPROCESSOR []
          (draw_loop 35 tail xc_hl_state_t.PREPROCESSOR []) := by
    have h9 : ¬ (35 : Int) = 9 := by decide
    have h34 : ¬ ((35 : Int) = 34 ∧ (0 : Int) ≠ 92 ∧ (0 : Int) ≠ 39) := by decide
    rw [draw_loop_default, if_neg h9, if_neg h34, if_pos ⟨rfl, hn⟩]
  rw [h1, draw_loop_preprocessor tail 35 [] htab, step_eq_prepend, prepend_prepend]
  simp [draw_trace.prepend, flush_token_nil, List.replicate_succ]

theorem preprocessor_line_has_no_exit_witness :
    (draw_line (state_of_line (bytes "#include <a.h>")) 0).out
        = (bytes "#include <a.h>").flatMap (fun b => PREPROCESSOR_PREFIX ++ [b]) ++ [10] ∧
      (draw_line (state_of_line (bytes "#include <a.h>")) 0).states
        = List.replicate 14 xc_hl_state_t.PREPROCESSOR :=
  preprocessor_line_has_no_exit (state_of_line (bytes "#include <a.h>")) 0
    (bytes "include <a.h>") (by decide) (by decide) (by decide) (by decide)

theorem draw_loop_string (body : List Int) :
    ∀ (p : Int) (rest token : List Int), (∀ b ∈ body, b ≠ 9) →
      List.Chain (fun q b => b = 34 → q = 92) p body → body.getLastD p ≠ 92 →
      draw_loop p (body ++ 34 :: rest) xc_hl_state_t.STRING token
        = draw_trace.prepend
            ((body ++ [34]).flatMap (fun b => STRING_PREFIX ++ [b]) ++ STYLE_RESET)
            (List.replicate body.length xc_hl_state_t.STRING ++ [xc_hl_state_t.DEFAULT]) []
            (draw_loop 34 rest xc_hl_state_t.DEFAULT token) := by
  induction body with
  | nil =>
    intro p rest token _ _ hlast
    have hp : p ≠ 92 := by simpa using hlast
    have h9 : ¬ (34 : Int) = 9 := by decide
    simp [draw_loop, hp, h9, step_eq_prepend]
  | cons c cs ih =>
    intro p rest token htab hchain hlast
    have hc9 : c ≠ 9 := htab c (by simp)
    obtain ⟨hq, hch⟩ := List.chain_cons.mp hchain
    have hexit : ¬ (c = 34 ∧ p ≠ 92) := fun h => h.2 (hq h.1)
    have hl : cs.getLastD c ≠ 92 := by
      cases cs with
      | nil => simpa using hlast
      | cons d ds => simpa using hlast
    have := ih c rest token (fun b hb => htab b (by simp [hb])) hch hl
    simp only [List.cons_append, draw_loop, hc9, if_false, hexit, step_eq_prepend, List.append_eq]
    rw [this, prepend_prepend]
    simp [List.replicate_succ]

/-- C14: for a line of the form `"` body `"` rest that starts in DEFAULT, where body
holds no tab, every `"` of body is immediately preceded by a backslash and the byte
before the closing `"` is not a backslash, `draw_line` prints the opening quote, every
byte of body and the closing quote with the string style prefix, then the style reset;
the highlight state is STRING after every byte before the closing quote and DEFAULT
after the closing quote, and rest is then rendered from DEFAULT with an empty token. -/
theorem string_ends_at_closing_quote (state : xc_state_t) (line_num : Int)
    (body rest : List Int) (hnum : line_num ≤ state.buffer.count)
    (hline : c_string (state.buffer.lines.getD line_num.toNat default).text
      = 34 :: (body ++ 34 :: rest))
    (htab : ∀ b ∈ body, b ≠ 9)
    (hesc : List.Chain (fun q b => b = 34 → q = 92) 34 body)
    (hclose : body.getLastD 34 ≠ 92) :
    (draw_line state line_num).out
        = (34 :: (body ++ [34])).flatMap (fun b => STRING_PREFIX ++ [b]) ++ STYLE_RESET
          ++ (draw_loop 34 rest xc_hl_state_t.DEFAULT []).out ∧
      (draw_line state line_num).states
        = List.replicate (body.length + 1) xc_hl_state_t.STRING
          ++ xc_hl_state_t.DEFAULT :: (draw_loop 34 rest xc_hl_state_t.DEFAULT []).states := by
  rw [draw_line_eq state line_num _ hnum hline]
  have h9 : ¬ (34 : Int) = 9 := by decide
  have h34 : (34 : Int) = 34 ∧ (0 : Int) ≠ 92 ∧ (0 : Int) ≠ 39 := by decide
  rw [draw_loop_default, if_neg h9, if_pos h34, draw_loop_string body 34 rest [] htab hesc hclose,
    step_eq_prepend, prepend_prepend]
  simp [draw_trace.prepend, flush_token_nil, List.replicate_succ]

theorem string_ends_at_closing_quote_witness :
    (draw_line (state_of_line (bytes "\"ab\\\"cd\"")) 0).out
        = (bytes "\"ab\\\"cd\"").flatMap (fun b => STRING_PREFIX ++ [b]) ++ STYLE_RESET
          ++ [10] ∧
      (draw_line (state_of_line (bytes "\"ab\\\"cd\"")) 0).states
        = List.replicate 7 xc_hl_state_t.STRING ++ [xc_hl_state_t.DEFAULT] :=
  string_ends_at_closing_quote (state_of_line (bytes "\"ab\\\"cd\"")) 0 (bytes "ab\\\"cd") []
    (by decide) (by decide) (by decide)
    (by
      show List.Chain (fun q b => b = 34 → q = 92) 34 [97, 98, 92, 34, 99, 100]
      simp)
    (by decide)

theorem is_delim_false (c : Int) (h : is_delim c = false) : c ≠ 34 ∧ c ≠ 47 := by
  simp only [is_delim, decide_eq_false_iff_not] at h
  omega

theorem is_delim_true (c : Int) (h : is_delim c = true) : c ≠ 9 ∧ c ≠ 35 := by
  simp only [is_delim, decide_eq_true_eq] at h
  omega

theorem draw_loop_delim (p c : Int) (rest token : List Int) (hd : is_delim c = true)
    (h34 : c ≠ 34) (h47 : c ≠ 47) :
    draw_loop p (c :: rest) xc_hl_state_t.DEFAULT token
      = draw_trace.step (flush_token token ++ [c]) xc_hl_state_t.DEFAULT [token]
          (draw_loop c rest xc_hl_state_t.DEFAULT []) := by
  obtain ⟨h9, h35⟩ := is_delim_true c hd
  rw [draw_loop_default, if_neg h9, if_neg (fun h => h34 h.1), if_neg (fun h => h35 h.1),
    if_neg (fun h => h47 h.1), if_pos (Or.inl hd)]

theorem draw_loop_token_run (W : List Int) :
    ∀ (p : Int) (token rest : List Int),
      (∀ b ∈ W, is_delim b = false ∧ b ≠ 35 ∧ b ≠ 9) → (∀ b ∈ W, b ≠ 0) → rest.headD 0 ≠ 0 →
      draw_loop p (W ++ rest) xc_hl_state_t.DEFAULT token
        = draw_trace.prepend [] (List.replicate W.length xc_hl_state_t.DEFAULT) []
            (draw_loop (W.getLastD p) rest xc_hl_state_t.DEFAULT (token ++ W)) := by
  induction W with
  | nil => intro p token rest _ _ _; simp [draw_trace.prepend]
  | cons c cs ih =>
    intro p token rest hp hz hr
    obtain ⟨hd, h35, h9⟩ := hp c (by simp)
    obtain ⟨h34, h47⟩ := is_delim_false c hd
    have hn : (cs ++ rest).headD 0 ≠ 0 := by
      cases cs with
      | nil => simpa using hr
      | cons d ds => simpa using hz d (by simp)
    have hnd : ¬ (is_delim c = true ∨ (cs ++ rest).headD 0 = 0) := by
      rintro (h | h)
      · rw [hd] at h; exact Bool.false_ne_true h
      · exact hn h
    have hl : (c :: cs).getLastD p = cs.getLastD c := by
      cases cs <;> rfl
    rw [List.cons_append, draw_loop_default, if_neg h9, if_neg (fun h => h34 h.1),
      if_neg (fun h => h35 h.1), if_neg (fun h => h47 h.1), if_neg hnd,
      ih c (token ++ [c]) rest (fun b hb => hp b (by simp [hb]))
        (fun b hb => hz b (by simp [hb])) hr,
      step_eq_prepend, prepend_prepend, hl]
    simp [List.replicate_succ]

theorem types_plain : ∀ t ∈ types, ∀ b ∈ t, is_delim b = false ∧ b ≠ 35 ∧ b ≠ 9 := by
  decide

theorem flush_token_type (t : List Int) (h : t ∈ types) :
    flush_token t = TYPE_PREFIX ++ t ++ STYLE_RESET := by
  have : is_token t types = true := by
    simp only [is_token, List.any_eq_true, decide_eq_true_eq]
    exact ⟨t, h, rfl⟩
  simp [flush_token, this]

theorem flush_token_plain (t : List Int) (h1 : t ∉ types) (h2 : t ∉ keywords) (h3 : t ∉ proc) :
    flush_token t = t := by
  have e : ∀ arr : List (List Int), t ∉ arr → is_token t arr = false := by
    intro arr h
    cases hb : is_token t arr
    · rfl
    · simp only [is_token, List.any_eq_true, decide_eq_true_eq] at hb
      obtain ⟨a, ha, hta⟩ := hb
      exact absurd (hta ▸ ha) h
  simp [flush_token, e _ h1, e _ h2, e _ h3]

/-- C15: for a line `T` space `W` `; //` `R`, where `T` is a member of the type set, the
bytes of `W` are neither delimiters nor `#` nor tabs, `W` is in none of the three keyword
sets and `R` holds no tab, `draw_line` prints `T` with the type style, the space, `W` and
`; ` unstyled, the two slashes with the comment style, every byte of `R` with the
comment style, and the newline. -/
theorem type_token_then_comment (state : xc_state_t) (line_num : Int) (T W R : List Int)
    (hnum : line_num ≤ state.buffer.count)
    (hline : c_string (state.buffer.lines.getD line_num.toNat default).text
      = T ++ 32 :: (W ++ 59 :: 32 :: 47 :: 47 :: R))
    (hT : T ∈ types) (hW : ∀ b ∈ W, is_delim b = false ∧ b ≠ 35 ∧ b ≠ 9)
    (hWt : W ∉ types) (hWk : W ∉ keywords) (hWp : W ∉ proc) (hR : ∀ b ∈ R, b ≠ 9) :
    (draw_line state line_num).out
      = TYPE_PREFIX ++ T ++ STYLE_RESET ++ [32] ++ W ++ [59, 32] ++ COMMENT_PREFIX ++ [47, 47]
        ++ R.flatMap (fun b => COMMENT_PREFIX ++ [b]) ++ [10] := by
  have hz := c_string_ne_zero (state.buffer.lines.getD line_num.toNat default).text
  rw [hline] at hz
  have hzT : ∀ b ∈ T, b ≠ 0 := fun b hb => hz b (by simp [hb])
  have hzW : ∀ b ∈ W, b ≠ 0 := fun b hb => hz b (by simp [hb])
  rw [draw_line_eq state line_num _ hnum hline]
  have hsp : is_delim 32 = true := by decide
  have hsc : is_delim 59 = true := by decide
  have h1 := draw_loop_token_run T 0 [] (32 :: (W ++ 59 :: 32 :: 47 :: 47 :: R))
    (types_plain T hT) hzT (by simp)
  have h2 := draw_loop_delim (T.getLastD 0) 32 (W ++ 59 :: 32 :: 47 :: 47 :: R) ([] ++ T) hsp
    (by decide) (by decide)
  have h3 := draw_loop_token_run W 32 [] (59 :: 32 :: 47 :: 47 :: R) hW hzW (by simp)
  have h4 := draw_loop_delim (W.getLastD 32) 59 (32 :: 47 :: 47 :: R) ([] ++ W) hsc
    (by decide) (by decide)
  have h5 := draw_loop_delim 59 32 (47 :: 47 :: R) [] hsp (by decide) (by decide)
  have h6 : draw_loop 32 (47 :: 47 :: R) xc_hl_state_t.DEFAULT []
      = draw_trace.step (COMMENT_PREFIX ++ [47, 47]) xc_hl_state_t.COMMENT []
          (draw_loop 47 R xc_hl_state_t.COMMENT []) := by
    rw [draw_loop_default, if_neg (by decide), if_neg (by decide), if_neg (by simp),
      if_pos (by simp)]
    rfl
  have h7 := draw_loop_comment R 47 [] hR
  rw [h1, h2, h3, h4, h5, h6, h7]
  simp only [List.nil_append, flush_token_type T hT, flush_token_plain W hWt hWk hWp,
    flush_token_nil, draw_trace.step, draw_trace.prepend]
  simp

theorem type_token_then_comment_witness :
    (draw_line (state_of_line (bytes "int x; // note")) 0).out
      = TYPE_PREFIX ++ bytes "int" ++ STYLE_RESET ++ [32] ++ bytes "x" ++ [59, 32]
        ++ COMMENT_PREFIX ++ [47, 47]
        ++ (bytes " note").flatMap (fun b => COMMENT_PREFIX ++ [b]) ++ [10] :=
  type_token_then_comment (state_of_line (bytes "int x; // note")) 0 (bytes "int") (bytes "x")
    (bytes " note") (by decide) (by decide) (by decide) (by decide) (by decide) (by decide)
    (by decide) (by decide)

/-! ## Tokens passed to `flush_token` -/

theorem proc_hash : ∀ m ∈ proc, 35 ∈ m ∧ m.getLast? ≠ some 35 := by decide

theorem hash_free_or_last_not_proc (t : List Int) (h : hash_free_or_last t) : t ∉ proc := by
  intro hm
  obtain ⟨h1, h2⟩ := proc_hash t hm
  rcases h with h | h
  · exact h h1
  · exact h2 h

theorem token_inv_good (token : List Int) (hl : xc_hl_state_t) (cs : List Int)
    (h : token_inv token hl cs) : hash_free_or_last token := by
  rcases h with h | h
  · exact Or.inl h
  · exact Or.inr h.1

theorem token_inv_nil (hl : xc_hl_state_t) (cs : List Int) : token_inv [] hl cs :=
  Or.inl (by simp)

theorem token_inv_rest (token : List Int) (hl hl2 : xc_hl_state_t) (c : Int)
    (rest cs2 : List Int) (h : token_inv token hl (c :: rest)) (hc : c ≠ 39) :
    token_inv token hl2 cs2 := by
  rcases h with h | h
  · exact Or.inl h
  · exact absurd (by simpa using h.2.2) hc

theorem token_inv_not_default (token : List Int) (hl hl2 : xc_hl_state_t) (cs cs2 : List Int)
    (h : token_inv token hl cs) (hd : hl ≠ xc_hl_state_t.DEFAULT) :
    token_inv token hl2 cs2 := by
  rcases h with h | h
  · exact Or.inl h
  · exact absurd h.2.1 hd

theorem draw_loop_other (p c : Int) (rest token : List Int) :
    draw_loop p (c :: rest) xc_hl_state_t.STRING token
        = (if c = 9 then
            draw_trace.step (List.replicate TAB_WIDTH.toNat 32) xc_hl_state_t.STRING []
              (draw_loop c rest xc_hl_state_t.STRING token)
          else if c = 34 ∧ p ≠ 92 then
            draw_trace.step (STRING_PREFIX ++ [c] ++ STYLE_RESET) xc_hl_state_t.DEFAULT []
              (draw_loop c rest xc_hl_state_t.DEFAULT token)
          else
            draw_trace.step (STRING_PREFIX ++ [c]) xc_hl_state_t.STRING []
              (draw_loop c rest xc_hl_state_t.STRING token)) ∧
      draw_loop p (c :: rest) xc_hl_state_t.COMMENT token
        = (if c = 9 then
            draw_trace.step (List.replicate TAB_WIDTH.toNat 32) xc_hl_state_t.COMMENT []
              (draw_loop c rest xc_hl_state_t.COMMENT token)
          else
            draw_trace.step (COMMENT_PREFIX ++ [c]) xc_hl_state_t.COMMENT []
              (draw_loop c rest xc_hl_state_t.COMMENT token)) ∧
      draw_loop p (c :: rest) xc_hl_state_t.PREPROCESSOR token
        = (if c = 9 then
            draw_trace.step (List.replicate TAB_WIDTH.toNat 32) xc_hl_state_t.PREPROCESSOR []
              (draw_loop c rest xc_hl_state_t.PREPROCESSOR token)
          else
            draw_trace.step (PREPROCESSOR_PREFIX ++ [c]) xc_hl_state_t.PREPROCESSOR []
              (draw_loop c rest xc_hl_state_t.PREPROCESSOR token)) := by
  refine ⟨?_, ?_, ?_⟩ <;> simp only [draw_loop]

theorem flushed_step (o : List Int) (hl : xc_hl_state_t) (fl : List (List Int))
    (t : draw_trace) : (draw_trace.step o hl fl t).flushed = fl ++ t.flushed := rfl

theorem draw_loop_flushed (n : Nat) :
    ∀ (cs : List Int), cs.length ≤ n → ∀ (p : Int) (hl : xc_hl_state_t) (token : List Int),
      token_inv token hl cs →
      ∀ t ∈ (draw_loop p cs hl token).flushed, hash_free_or_last t := by
  induction n with
  | zero =>
    intro cs hcs p hl token hinv t ht
    have : cs = [] := List.eq_nil_of_length_eq_zero (by omega)
    subst this
    simp only [draw_loop, List.mem_singleton] at ht
    rw [ht]
    exact token_inv_good _ _ _ hinv
  | succ n ih =>
    intro cs hcs p hl token hinv t ht
    cases cs with
    | nil =>
      simp only [draw_loop, List.mem_singleton] at ht
      rw [ht]
      exact token_inv_good _ _ _ hinv
    | cons c rest =>
      have hrest : rest.length ≤ n := by simp at hcs; omega
      have htail : rest.tail.length ≤ n := by simp; omega
      have hgood := token_inv_good _ _ _ hinv
      cases hl with
      | DEFAULT =>
        rw [draw_loop_default] at ht
        split_ifs at ht with h9 h34 h35 h47 hdel
        · rw [flushed_step, List.nil_append] at ht
          exact ih rest hrest _ _ _ (token_inv_rest _ _ _ c rest rest hinv (by omega)) t ht
        · rw [flushed_step] at ht
          rcases List.mem_append.mp ht with h | h
          · rw [List.mem_singleton.mp h]; exact hgood
          · exact ih rest hrest _ _ _ (token_inv_nil _ _) t h
        · rw [flushed_step, List.nil_append] at ht
          exact ih rest hrest _ _ _ (token_inv_rest _ _ _ c rest rest hinv (by omega)) t ht
        · rw [flushed_step, List.nil_append] at ht
          exact ih rest.tail htail _ _ _
            (token_inv_rest _ _ _ c rest rest.tail hinv (by omega)) t ht
        · rw [flushed_step] at ht
          rcases List.mem_append.mp ht with h | h
          · rw [List.mem_singleton.mp h]; exact hgood
          · exact ih rest hrest _ _ _ (token_inv_nil _ _) t h
        · rw [flushed_step, List.nil_append] at ht
          apply ih rest hrest _ _ _ _ t ht
          have hnd : is_delim c = false := by
            cases hb : is_delim c
            · rfl
            · exact absurd (Or.inl hb) hdel
          have hc39 : c ≠ 39 := by
            intro e
            rw [e] at hnd
            exact absurd hnd (by decide)
          have hfree : (35 : Int) ∉ token := by
            rcases hinv with h | h
            · exact h
            · exact absurd (by simpa using h.2.2) hc39
          by_cases hc : c = 35
          · right
            refine ⟨by simp [hc], rfl, ?_⟩
            have hn : rest.headD 0 = 39 := by
              by_contra hne
              exact h35 ⟨hc, hne⟩
            cases rest with
            | nil => simp at hn
            | cons d ds => simpa using hn
          · left
            simp only [List.mem_append, List.mem_singleton, not_or]
            exact ⟨hfree, fun e => hc e.symm⟩
      | STRING =>
        rw [(draw_loop_other p c rest token).1] at ht
        have hinv2 : ∀ hl2 cs2, token_inv token hl2 cs2 :=
          fun hl2 cs2 => token_inv_not_default _ _ hl2 _ cs2 hinv (by decide)
        split_ifs at ht <;> rw [flushed_step, List.nil_append] at ht <;>
          exact ih rest hrest _ _ _ (hinv2 _ _) t ht
      | COMMENT =>
        rw [(draw_loop_other p c rest token).2.1] at ht
        have hinv2 : ∀ hl2 cs2, token_inv token hl2 cs2 :=
          fun hl2 cs2 => token_inv_not_default _ _ hl2 _ cs2 hinv (by decide)
        split_ifs at ht <;> rw [flushed_step, List.nil_append] at ht <;>
          exact ih rest hrest _ _ _ (hinv2 _ _) t ht
      | PREPROCESSOR =>
        rw [(draw_loop_other p c rest token).2.2] at ht
        have hinv2 : ∀ hl2 cs2, token_inv token hl2 cs2 :=
          fun hl2 cs2 => token_inv_not_default _ _ hl2 _ cs2 hinv (by decide)
        split_ifs at ht <;> rw [flushed_step, List.nil_append] at ht <;>
          exact ih rest hrest _ _ _ (hinv2 _ _) t ht

/-- C20: whatever the line, a token that `draw_line` passes to `flush_token` holds no
`#` except possibly as its last byte (a `#` is accumulated only before a single quote,
which flushes it), so it is no member of `proc`, and `flush_token` prints it with the
type style, with the keyword style or unstyled, never with the preprocessor style. -/
theorem proc_tier_unreachable (state : xc_state_t) (line_num : Int) :
    ∀ t ∈ (draw_line state line_num).flushed,
      hash_free_or_last t ∧ t ∉ proc ∧
        (flush_token t = TYPE_PREFIX ++ t ++ STYLE_RESET ∨
          flush_token t = KEYWORD_PREFIX ++ t ++ STYLE_RESET ∨ flush_token t = t) := by
  intro t ht
  have hgood : hash_free_or_last t := by
    simp only [draw_line] at ht
    split_ifs at ht
    · simp at ht
    · exact draw_loop_flushed _ _ (le_refl _) 0 _ [] (token_inv_nil _ _) t ht
  have hproc := hash_free_or_last_not_proc t hgood
  refine ⟨hgood, hproc, ?_⟩
  have e : is_token t proc = false := by
    cases hb : is_token t proc
    · rfl
    · simp only [is_token, List.any_eq_true, decide_eq_true_eq] at hb
      obtain ⟨a, ha, hta⟩ := hb
      exact absurd (hta ▸ ha) hproc
  simp only [flush_token, e, Bool.false_eq_true, if_false]
  split_ifs
  · exact Or.inl rfl
  · exact Or.inr (Or.inl rfl)
  · exact Or.inr (Or.inr rfl)

theorem proc_tier_unreachable_witness :
    bytes "x#" ∈ (draw_line (state_of_line (bytes "x#'a'")) 0).flushed ∧
      hash_free_or_last (bytes "x#") ∧ bytes "x#" ∉ proc ∧
      (flush_token (bytes "x#") = TYPE_PREFIX ++ bytes "x#" ++ STYLE_RESET ∨
        flush_token (bytes "x#") = KEYWORD_PREFIX ++ bytes "x#" ++ STYLE_RESET ∨
        flush_token (bytes "x#") = bytes "x#") :=
  ⟨by decide,
    proc_tier_unreachable (state_of_line (bytes "x#'a'")) 0 (bytes "x#") (by decide)⟩

end Xc
